import Mathlib

/-!
Verification development for the `lspschema` generator
(`src/cmd/lspschema/gen.go`): a shallow functional embedding of its
data model (the meta-model catalog and the recursive schema-node
grammar), its strict JSON decoder, its reference resolver, and its
struct-declaration emitter, together with theorems settling the
specification claims about them.

Go pointers become `Option`, Go slices become `List`, machine strings
become `String`, and the mutually recursive resolver (which in Go can
recurse forever through structure references) is embedded with an
explicit fuel parameter: a result of `none` means the fuel ran out,
`some (Except.error e)` models a returned error or a panic, and
`some (Except.ok v)` models normal completion.  Panics are modelled as
errors carrying the panic message; since a panic aborts the process,
no theorem inspects output text of a panicking run.
-/

namespace Lsplib

/-- Generic JSON document values, the input shape fed to the decoders. -/
inductive Json where
| null : Json
| bool (b : Bool) : Json
| num (n : Int) : Json
| str (s : String) : Json
| arr (items : List Json) : Json
| obj (fields : List (String × Json)) : Json
deriving Repr

/-- Shared optional metadata carried by every catalog entity (Go `BaseElement`). -/
structure BaseElement where
  since : Option String
  proposed : Bool
  deprecated : Option String
  documentation : Option String
  sinceTags : List String
deriving Repr, DecidableEq

/-- The Go zero value of `BaseElement` (what an unpopulated embed holds). -/
def BaseElement.zero : BaseElement := ⟨none, false, none, none, []⟩

/-- Go `MetaData`. -/
structure MetaData where
  version : String
deriving Repr, DecidableEq

/-- Go `BaseSchema`: a primitive type name. -/
structure BaseSchema where
  kind : String
  name : String
deriving Repr, DecidableEq

/-- Go `StringLiteralSchema`. -/
structure StringLiteralSchema where
  kind : String
  value : String
deriving Repr, DecidableEq

/-- Go `LiteralSchema`; its `Value interface\x7b\x7d` payload is kept as raw JSON. -/
structure LiteralSchema where
  kind : String
  value : Json
deriving Repr

mutual

/-- Go `Schema`: a record of one `Kind` discriminator plus one optional
pointer per variant payload, mirroring the source struct verbatim
(the decoder sets exactly one pointer, but the type does not force that). -/
inductive Schema where
| mk (baseElement : BaseElement) (kind : String)
    (base : Option BaseSchema) (reference : Option ReferenceSchema)
    (array : Option ArraySchema) (or : Option OrSchema) (and : Option AndSchema)
    (map : Option MapSchema) (stringLiteral : Option StringLiteralSchema)
    (literal : Option LiteralSchema) (tuple : Option TupleSchema) : Schema

/-- Go `ReferenceSchema`: a symbolic name plus the post-resolution handle `Found`. -/
inductive ReferenceSchema where
| mk (kind : String) (name : String) (found : Option AnyRef) : ReferenceSchema

/-- Go `ArraySchema` (`Element *Schema`, hence optional). -/
inductive ArraySchema where
| mk (kind : String) (element : Option Schema) : ArraySchema

/-- Go `OrSchema`. -/
inductive OrSchema where
| mk (kind : String) (items : List Schema) : OrSchema

/-- Go `AndSchema`. -/
inductive AndSchema where
| mk (kind : String) (items : List Schema) : AndSchema

/-- Go `MapSchema` (`Key`, `Value *Schema`). -/
inductive MapSchema where
| mk (kind : String) (key : Option Schema) (value : Option Schema) : MapSchema

/-- Go `TupleSchema`. -/
inductive TupleSchema where
| mk (kind : String) (items : List Schema) : TupleSchema

/-- Go `AnyRef`: the resolution handle, one optional slot per namespace. -/
inductive AnyRef where
| mk (name : String) (struct : Option Structure) (enum : Option Enumeration)
    (aliasT : Option TypeAlias) : AnyRef

/-- Go `Structure`. -/
inductive Structure where
| mk (baseElement : BaseElement) (name : String) (properties : List Property)
    (documentations : String) (extendsList : List Schema)
    (mixins : List Schema) : Structure

/-- Go `Property` (`Type *Schema`). -/
inductive Property where
| mk (baseElement : BaseElement) (name : String) (type : Option Schema)
    (optional : Bool) : Property

/-- Go `Enumeration`. -/
inductive Enumeration where
| mk (baseElement : BaseElement) (name : String) (type : Option Schema)
    (values : List Json) (supportsCustomValues : Bool) : Enumeration

/-- Go `TypeAlias`. -/
inductive TypeAlias where
| mk (baseElement : BaseElement) (name : String) (type : Option Schema) : TypeAlias

end

def Schema.baseElement : Schema → BaseElement
| .mk be _ _ _ _ _ _ _ _ _ _ => be

def Schema.kind : Schema → String
| .mk _ k _ _ _ _ _ _ _ _ _ => k

def Schema.base : Schema → Option BaseSchema
| .mk _ _ b _ _ _ _ _ _ _ _ => b

def Schema.reference : Schema → Option ReferenceSchema
| .mk _ _ _ r _ _ _ _ _ _ _ => r

def Schema.array : Schema → Option ArraySchema
| .mk _ _ _ _ a _ _ _ _ _ _ => a

def Schema.or : Schema → Option OrSchema
| .mk _ _ _ _ _ o _ _ _ _ _ => o

def Schema.and : Schema → Option AndSchema
| .mk _ _ _ _ _ _ a _ _ _ _ => a

def Schema.map : Schema → Option MapSchema
| .mk _ _ _ _ _ _ _ m _ _ _ => m

def Schema.stringLiteral : Schema → Option StringLiteralSchema
| .mk _ _ _ _ _ _ _ _ s _ _ => s

def Schema.literal : Schema → Option LiteralSchema
| .mk _ _ _ _ _ _ _ _ _ l _ => l

def Schema.tuple : Schema → Option TupleSchema
| .mk _ _ _ _ _ _ _ _ _ _ t => t

def ReferenceSchema.kind : ReferenceSchema → String
| .mk k _ _ => k

def ReferenceSchema.name : ReferenceSchema → String
| .mk _ n _ => n

def ReferenceSchema.found : ReferenceSchema → Option AnyRef
| .mk _ _ f => f

def ArraySchema.kind : ArraySchema → String
| .mk k _ => k

def ArraySchema.element : ArraySchema → Option Schema
| .mk _ e => e

def OrSchema.kind : OrSchema → String
| .mk k _ => k

def OrSchema.items : OrSchema → List Schema
| .mk _ xs => xs

def AndSchema.kind : AndSchema → String
| .mk k _ => k

def AndSchema.items : AndSchema → List Schema
| .mk _ xs => xs

def MapSchema.kind : MapSchema → String
| .mk k _ _ => k

def MapSchema.key : MapSchema → Option Schema
| .mk _ k _ => k

def MapSchema.value : MapSchema → Option Schema
| .mk _ _ v => v

def TupleSchema.kind : TupleSchema → String
| .mk k _ => k

def TupleSchema.items : TupleSchema → List Schema
| .mk _ xs => xs

def AnyRef.name : AnyRef → String
| .mk n _ _ _ => n

def AnyRef.struct : AnyRef → Option Structure
| .mk _ s _ _ => s

def AnyRef.enum : AnyRef → Option Enumeration
| .mk _ _ e _ => e

def AnyRef.aliasT : AnyRef → Option TypeAlias
| .mk _ _ _ a => a

def Structure.baseElement : Structure → BaseElement
| .mk be _ _ _ _ _ => be

def Structure.name : Structure → String
| .mk _ n _ _ _ _ => n

def Structure.properties : Structure → List Property
| .mk _ _ ps _ _ _ => ps

def Structure.documentations : Structure → String
| .mk _ _ _ d _ _ => d

def Structure.extendsList : Structure → List Schema
| .mk _ _ _ _ e _ => e

def Structure.mixins : Structure → List Schema
| .mk _ _ _ _ _ m => m

def Property.baseElement : Property → BaseElement
| .mk be _ _ _ => be

def Property.name : Property → String
| .mk _ n _ _ => n

def Property.type : Property → Option Schema
| .mk _ _ t _ => t

def Property.optional : Property → Bool
| .mk _ _ _ o => o

def Enumeration.name : Enumeration → String
| .mk _ n _ _ _ => n

def TypeAlias.name : TypeAlias → String
| .mk _ n _ => n

/-- Go `MessageDirection`. -/
def MessageDirection := String
deriving instance Repr, DecidableEq for MessageDirection

/-- Go `Request` (also used for notifications). -/
structure Request where
  baseElement : BaseElement
  method : String
  typeName : String
  result : Option Schema
  messageDirection : MessageDirection
  params : Option Schema
  partialResult : Option Schema
  registrationOptions : Option Schema
  registrationMethod : String
  errorData : Option Schema

/-- Go `Model`: the decoded definition catalog. -/
structure Model where
  metaData : MetaData
  requests : List Request
  structures : List Structure
  enumerations : List Enumeration
  notifications : List Request
  typeAliases : List TypeAlias

/-- The message of a Go nil-pointer-dereference runtime panic, used where the
source would dereference a nil pointer. -/
def nilDeref : String := "runtime error: invalid memory address or nil pointer dereference"

/-- Bind for fueled fallible computations: `none` (fuel exhausted, modelling
divergence) and errors (returned errors or panics) both propagate. -/
def rbind {α β : Type} (x : Option (Except String α))
    (f : α → Option (Except String β)) : Option (Except String β) :=
  match x with
  | none => none
  | some (.error e) => some (.error e)
  | some (.ok v) => f v

/-- First structure in the catalog bearing a name (the scan in Go
`Model.Structure` and `Model.AnyRef`). -/
def findStructure (m : Model) (name : String) : Option Structure :=
  m.structures.find? (fun s => s.name == name)

/-- First enumeration in the catalog bearing a name. -/
def findEnumeration (m : Model) (name : String) : Option Enumeration :=
  m.enumerations.find? (fun e => e.name == name)

/-- First type alias in the catalog bearing a name. -/
def findTypeAlias (m : Model) (name : String) : Option TypeAlias :=
  m.typeAliases.find? (fun a => a.name == name)

mutual

/-- Go `Model.ResolveRefs`, embedded functionally: returns the schema with
resolution handles attached instead of mutating in place.  The fuel
parameter makes the (in Go unboundedly recursive) call graph total:
`none` means the fuel ran out. -/
def resolveRefsF : Nat → Model → Schema → Option (Except String Schema)
| 0, _, _ => none
| fuel + 1, m, .mk be k b r a o an mp sl l t =>
  match r with
  | some ref =>
    rbind (anyRefF fuel m ref.name) fun fnd =>
    some (.ok (.mk be k b (some (.mk ref.kind ref.name (some fnd))) a o an mp sl l t))
  | none =>
  match a with
  | some arr =>
    (match arr.element with
     | none => some (.error nilDeref)
     | some el =>
       rbind (resolveRefsF fuel m el) fun el2 =>
       some (.ok (.mk be k b r (some (.mk arr.kind (some el2))) o an mp sl l t)))
  | none =>
    rbind (resolveOrF fuel m o) fun o2 =>
    rbind (resolveAndF fuel m an) fun an2 =>
    rbind (resolveMapF fuel m mp) fun mp2 =>
    rbind (resolveTupleF fuel m t) fun t2 =>
    some (.ok (.mk be k b r a o2 an2 mp2 sl l t2))

/-- The `if s.Or != nil` block of `ResolveRefs` (no-op when absent). -/
def resolveOrF : Nat → Model → Option OrSchema → Option (Except String (Option OrSchema))
| 0, _, _ => none
| _ + 1, _, none => some (.ok none)
| fuel + 1, m, some (.mk k1 xs) =>
  rbind (resolveItemsF fuel m xs) fun xs2 =>
  some (.ok (some (.mk k1 xs2)))

/-- The `if s.And != nil` block of `ResolveRefs`. -/
def resolveAndF : Nat → Model → Option AndSchema → Option (Except String (Option AndSchema))
| 0, _, _ => none
| _ + 1, _, none => some (.ok none)
| fuel + 1, m, some (.mk k1 xs) =>
  rbind (resolveItemsF fuel m xs) fun xs2 =>
  some (.ok (some (.mk k1 xs2)))

/-- The `if s.Map != nil` block of `ResolveRefs` (a nil key or value would
make the recursive Go call panic on a nil receiver argument). -/
def resolveMapF : Nat → Model → Option MapSchema → Option (Except String (Option MapSchema))
| 0, _, _ => none
| _ + 1, _, none => some (.ok none)
| fuel + 1, m, some (.mk k1 ky vl) =>
  rbind (match ky with
         | none => some (.error nilDeref)
         | some k0 => resolveRefsF fuel m k0) fun k2 =>
  rbind (match vl with
         | none => some (.error nilDeref)
         | some v0 => resolveRefsF fuel m v0) fun v2 =>
  some (.ok (some (.mk k1 (some k2) (some v2))))

/-- The `if s.Tuple != nil` block of `ResolveRefs`. -/
def resolveTupleF : Nat → Model → Option TupleSchema → Option (Except String (Option TupleSchema))
| 0, _, _ => none
| _ + 1, _, none => some (.ok none)
| fuel + 1, m, some (.mk k1 xs) =>
  rbind (resolveItemsF fuel m xs) fun xs2 =>
  some (.ok (some (.mk k1 xs2)))

/-- The item loops of Go `ResolveRefs` over or/and/tuple members. -/
def resolveItemsF : Nat → Model → List Schema → Option (Except String (List Schema))
| 0, _, _ => none
| fuel + 1, m, xs =>
  match xs with
  | [] => some (.ok [])
  | x :: rest =>
    rbind (resolveRefsF fuel m x) fun x2 =>
    rbind (resolveItemsF fuel m rest) fun rest2 =>
    some (.ok (x2 :: rest2))

/-- Go `Model.AnyRef`: scan structures, then enumerations, then type
aliases; a structure hit recursively resolves that structure. -/
def anyRefF : Nat → Model → String → Option (Except String AnyRef)
| 0, _, _ => none
| fuel + 1, m, name =>
  match findStructure m name with
  | some _ =>
    rbind (resolveStructureF fuel m name) fun st =>
    some (.ok (.mk name (some st) none none))
  | none =>
    match findEnumeration m name with
    | some e => some (.ok (.mk name none (some e) none))
    | none =>
      match findTypeAlias m name with
      | some al => some (.ok (.mk name none none (some al)))
      | none => some (.error ("ref not found: " ++ name))

/-- The property loop of Go `Model.Structure`: resolve each property's
type in order (a nil type would make `ResolveRefs` panic). -/
def resolvePropsF : Nat → Model → List Property → Option (Except String (List Property))
| 0, _, _ => none
| fuel + 1, m, ps =>
  match ps with
  | [] => some (.ok [])
  | .mk be n ty opt :: rest =>
    rbind (match ty with
           | none => some (.error nilDeref)
           | some t0 => resolveRefsF fuel m t0) fun t2 =>
    rbind (resolvePropsF fuel m rest) fun rest2 =>
    some (.ok (.mk be n (some t2) opt :: rest2))

/-- Go `Model.Structure`: find the first structure bearing the name, then
resolve every property type; embedded functionally, returning the
resolved copy. -/
def resolveStructureF : Nat → Model → String → Option (Except String Structure)
| 0, _, _ => none
| fuel + 1, m, name =>
  match findStructure m name with
  | none => some (.error ("structure not found: " ++ name))
  | some (.mk be n props docs exts mixs) =>
    rbind (resolvePropsF fuel m props) fun props2 =>
    some (.ok (.mk be n props2 docs exts mixs))

end

/-- Modelled from the spec: the in-memory field identifier is derived from
the wire identifier by the external `strcase.ToGoPascal` library
("first letter and word-boundaries capitalized"); that library is not
part of this repository, and no claim constrains more than the simple
one-word case, so only first-letter capitalization is modelled. -/
def toGoPascal (s : String) : String :=
  match s.data with
  | [] => ""
  | c :: cs => String.mk (c.toUpper :: cs)

/-- The field line built by Go `PrintStruct` for one property: note the
format string opens a backtick before the serialization tag and always
appends `,omitempty`, ignoring the property's optional flag. -/
def fieldLine (key typeName wireName : String) : String :=
  key ++ " " ++ typeName ++ " `json:\"" ++ wireName ++ ",omitempty\""

mutual

/-- Go `pp.PrintStruct`, embedded functionally: the returned string is the
text written to the output stream, in write order (referenced structure
declarations first, then the header, field lines, and closing brace);
panics become errors. -/
def printStructR : Structure → Except String String
| .mk _ name props _ _ _ =>
  match printPropsR props with
  | .error e => .error e
  | .ok (pre, types) =>
    .ok (pre ++ "type " ++ name ++ " struct \x7b\n" ++
      String.join (types.map (fun t => "\t" ++ t ++ "\n")) ++ "\x7d\n")

/-- The property loop of `PrintStruct`: accumulates the recursively
emitted text (`pre`, written during the loop) and the field lines
(`types`, written after the header). -/
def printPropsR : List Property → Except String (String × List String)
| [] => .ok ("", [])
| p :: rest =>
  match emitPropR p with
  | .error e => .error e
  | .ok (extra, tn) =>
    match printPropsR rest with
    | .error e => .error e
    | .ok (pre, types) =>
      .ok (extra ++ pre, fieldLine (toGoPascal p.name) tn p.name :: types)

/-- One iteration of the `PrintStruct` property loop: returns the text
emitted by recursive calls and the computed type name.  Mirrors the
source switch: only `reference` and `base` have cases; every other
kind leaves the type name empty and emits nothing extra. -/
def emitPropR : Property → Except String (String × String)
| .mk _ _ ty _ =>
  match ty with
  | none => .error nilDeref
  | some (.mk _ kind base reference _ _ _ _ _ _ _) =>
    if kind = "reference" then
      match reference with
      | none => .error nilDeref
      | some (.mk _ rname fnd) =>
        match fnd with
        | none => .error ("ref not found: " ++ rname)
        | some (.mk _ st en al) =>
          match st with
          | some st2 =>
            match printStructR st2 with
            | .error e => .error e
            | .ok out => .ok (out, "*" ++ st2.name)
          | none =>
            match en with
            | some e => .ok ("", e.name)
            | none =>
              match al with
              | some a => .ok ("", a.name)
              | none => .error "not implemented"
    else if kind = "base" then
      match base with
      | none => .error nilDeref
      | some b => if b.name = "string" then .ok ("", "string") else .ok ("", "")
    else .ok ("", "")

end

/-- Strip the resolution handle from a reference payload. -/
def eraseRefOpt : Option ReferenceSchema → Option ReferenceSchema
| none => none
| some (.mk rk rn _) => some (.mk rk rn none)

mutual

/-- Strip every resolution handle from a schema (set each reference
node's `found` to `none`), leaving all other fields untouched; used to
state the frame property of resolution. -/
def eraseS : Schema → Schema
| .mk be k b r a o an mp sl l t =>
  .mk be k b (eraseRefOpt r) (eraseArrOpt a) (eraseOrOpt o) (eraseAndOpt an)
    (eraseMapOpt mp) sl l (eraseTupleOpt t)

/-- `eraseS` under an optional schema. -/
def eraseOptS : Option Schema → Option Schema
| none => none
| some s => some (eraseS s)

/-- `eraseS` under an optional array payload. -/
def eraseArrOpt : Option ArraySchema → Option ArraySchema
| none => none
| some (.mk ak el) => some (.mk ak (eraseOptS el))

/-- `eraseS` under an optional or payload. -/
def eraseOrOpt : Option OrSchema → Option OrSchema
| none => none
| some (.mk k1 xs) => some (.mk k1 (eraseList xs))

/-- `eraseS` under an optional and payload. -/
def eraseAndOpt : Option AndSchema → Option AndSchema
| none => none
| some (.mk k1 xs) => some (.mk k1 (eraseList xs))

/-- `eraseS` under an optional map payload. -/
def eraseMapOpt : Option MapSchema → Option MapSchema
| none => none
| some (.mk k1 ky vl) => some (.mk k1 (eraseOptS ky) (eraseOptS vl))

/-- `eraseS` under an optional tuple payload. -/
def eraseTupleOpt : Option TupleSchema → Option TupleSchema
| none => none
| some (.mk k1 xs) => some (.mk k1 (eraseList xs))

/-- `eraseS` over a schema list. -/
def eraseList : List Schema → List Schema
| [] => []
| x :: xs => eraseS x :: eraseList xs

end

/-- Strip resolution handles from a property. -/
def eraseProp : Property → Property
| .mk be n ty opt => .mk be n (eraseOptS ty) opt

/-- Strip resolution handles from a property list. -/
def eraseProps : List Property → List Property := List.map eraseProp

/-- Strip resolution handles from a structure. -/
def eraseStruct : Structure → Structure
| .mk be n props docs exts mixs =>
  .mk be n (eraseProps props) docs (eraseList exts) (eraseList mixs)

/-- The error produced by `encoding/json` with `DisallowUnknownFields`
for a field not recognized by the target shape. -/
def unknownFieldErr (k : String) : String := "json: unknown field \"" ++ k ++ "\""

/-- Decoding a JSON value expected to be a string (field of type `string`);
the Go type-mismatch message is abbreviated, no claim depends on it. -/
def expectString : Json → Except String String
| .str s => .ok s
| _ => .error "json: cannot unmarshal value into Go value of type string"

/-- The first, non-strict decode in `Schema.UnmarshalJSON`: read only the
`kind` discriminator out of the object's fields (missing means the Go
zero value `""`; a later duplicate key overwrites an earlier one). -/
def exploreKindGo : List (String × Json) → String → Except String String
| [], acc => .ok acc
| (k, v) :: rest, acc =>
  if k = "kind" then
    match v with
    | .str s => exploreKindGo rest s
    | _ => .error "json: cannot unmarshal value into Go struct field .kind of type string"
  else exploreKindGo rest acc

/-- `kind` extraction over an object's field list. -/
def exploreKind (fs : List (String × Json)) : Except String String := exploreKindGo fs ""

/-- Wrap a variant decode result the way `Schema.UnmarshalJSON` wraps
`unmarshalStrict` errors (`unmarshal schema type %s: %w`). -/
def wrapDecode {α : Type} (kind : String) (x : Option (Except String α))
    (f : α → Schema) : Option (Except String Schema) :=
  match x with
  | none => none
  | some (.error e) => some (.error ("unmarshal schema type " ++ kind ++ ": " ++ e))
  | some (.ok v) => some (.ok (f v))

/-- Build the `Schema` record the way `UnmarshalJSON` leaves it: the
embedded `BaseElement` is never populated (it stays the zero value),
`Kind` holds the discriminator, and exactly the matched variant
pointer is set. -/
def schemaOfVariant (k : String)
    (b : Option BaseSchema) (r : Option ReferenceSchema) (a : Option ArraySchema)
    (o : Option OrSchema) (an : Option AndSchema) (mp : Option MapSchema)
    (sl : Option StringLiteralSchema) (l : Option LiteralSchema)
    (t : Option TupleSchema) : Schema :=
  .mk BaseElement.zero k b r a o an mp sl l t

mutual

/-- Go `Schema.UnmarshalJSON`: non-strictly read the `kind` discriminator,
dispatch on it (an unrecognized kind fails before anything else), then
strictly decode the fields into the selected variant shape.  Fueled for
the nested recursion; `none` means fuel ran out.  Deviations kept out
of scope (exercised by no claim): `encoding/json` matches field names
case-insensitively and would match a JSON `found` key to the untagged
`Found` field of `ReferenceSchema`; a JSON `null` at a `*Schema`
position inside a slice becomes a nil pointer in Go rather than an
error. -/
def decodeSchema : Nat → Json → Option (Except String Schema)
| 0, _ => none
| fuel + 1, j =>
  match j with
  | .obj fs =>
    (match exploreKind fs with
     | .error e => some (.error e)
     | .ok k =>
       if k = "array" then
         wrapDecode k (decodeArrayS fuel fs (.mk "" none)) fun v =>
           schemaOfVariant k none none (some v) none none none none none none
       else if k = "or" then
         wrapDecode k (decodeOrS fuel fs (.mk "" [])) fun v =>
           schemaOfVariant k none none none (some v) none none none none none
       else if k = "and" then
         wrapDecode k (decodeAndS fuel fs (.mk "" [])) fun v =>
           schemaOfVariant k none none none none (some v) none none none none
       else if k = "reference" then
         wrapDecode k (decodeReferenceS fuel fs (.mk "" "" none)) fun v =>
           schemaOfVariant k none (some v) none none none none none none none
       else if k = "base" then
         wrapDecode k (decodeBaseS fuel fs (.mk "" "")) fun v =>
           schemaOfVariant k (some v) none none none none none none none none
       else if k = "map" then
         wrapDecode k (decodeMapS fuel fs (.mk "" none none)) fun v =>
           schemaOfVariant k none none none none none (some v) none none none
       else if k = "stringLiteral" then
         wrapDecode k (decodeStringLitS fuel fs (.mk "" "")) fun v =>
           schemaOfVariant k none none none none none none (some v) none none
       else if k = "literal" then
         wrapDecode k (decodeLiteralS fuel fs (.mk "" .null)) fun v =>
           schemaOfVariant k none none none none none none none (some v) none
       else if k = "tuple" then
         wrapDecode k (decodeTupleS fuel fs (.mk "" [])) fun v =>
           schemaOfVariant k none none none none none none none none (some v)
       else some (.error ("unknown schema kind: " ++ k)))
  | _ => some (.error "json: cannot unmarshal non-object into schema")

/-- Strict decode into `ArraySchema` (`kind`, `element`). -/
def decodeArrayS : Nat → List (String × Json) → ArraySchema → Option (Except String ArraySchema)
| 0, _, _ => none
| fuel + 1, fs, acc =>
  match fs with
  | [] => some (.ok acc)
  | (k, v) :: rest =>
    if k = "kind" then
      match expectString v with
      | .error e => some (.error e)
      | .ok s => decodeArrayS fuel rest (.mk s acc.element)
    else if k = "element" then
      match v with
      | .null => decodeArrayS fuel rest (.mk acc.kind none)
      | _ =>
        rbind (decodeSchema fuel v) fun sch =>
        decodeArrayS fuel rest (.mk acc.kind (some sch))
    else some (.error (unknownFieldErr k))

/-- Strict decode of a `[]*Schema` JSON array ( `or`/`and`/`tuple` items). -/
def decodeItemsS : Nat → List Json → Option (Except String (List Schema))
| 0, _ => none
| fuel + 1, xs =>
  match xs with
  | [] => some (.ok [])
  | x :: rest =>
    rbind (decodeSchema fuel x) fun sch =>
    rbind (decodeItemsS fuel rest) fun rest2 =>
    some (.ok (sch :: rest2))

/-- Strict decode into `OrSchema` (`kind`, `items`). -/
def decodeOrS : Nat → List (String × Json) → OrSchema → Option (Except String OrSchema)
| 0, _, _ => none
| fuel + 1, fs, acc =>
  match fs with
  | [] => some (.ok acc)
  | (k, v) :: rest =>
    if k = "kind" then
      match expectString v with
      | .error e => some (.error e)
      | .ok s => decodeOrS fuel rest (.mk s acc.items)
    else if k = "items" then
      match v with
      | .null => decodeOrS fuel rest (.mk acc.kind [])
      | .arr xs =>
        rbind (decodeItemsS fuel xs) fun items2 =>
        decodeOrS fuel rest (.mk acc.kind items2)
      | _ => some (.error "json: cannot unmarshal value into Go value of type []*main.Schema")
    else some (.error (unknownFieldErr k))

/-- Strict decode into `AndSchema` (`kind`, `items`). -/
def decodeAndS : Nat → List (String × Json) → AndSchema → Option (Except String AndSchema)
| 0, _, _ => none
| fuel + 1, fs, acc =>
  match fs with
  | [] => some (.ok acc)
  | (k, v) :: rest =>
    if k = "kind" then
      match expectString v with
      | .error e => some (.error e)
      | .ok s => decodeAndS fuel rest (.mk s acc.items)
    else if k = "items" then
      match v with
      | .null => decodeAndS fuel rest (.mk acc.kind [])
      | .arr xs =>
        rbind (decodeItemsS fuel xs) fun items2 =>
        decodeAndS fuel rest (.mk acc.kind items2)
      | _ => some (.error "json: cannot unmarshal value into Go value of type []*main.Schema")
    else some (.error (unknownFieldErr k))

/-- Strict decode into `TupleSchema` (`kind`, `items`). -/
def decodeTupleS : Nat → List (String × Json) → TupleSchema → Option (Except String TupleSchema)
| 0, _, _ => none
| fuel + 1, fs, acc =>
  match fs with
  | [] => some (.ok acc)
  | (k, v) :: rest =>
    if k = "kind" then
      match expectString v with
      | .error e => some (.error e)
      | .ok s => decodeTupleS fuel rest (.mk s acc.items)
    else if k = "items" then
      match v with
      | .null => decodeTupleS fuel rest (.mk acc.kind [])
      | .arr xs =>
        rbind (decodeItemsS fuel xs) fun items2 =>
        decodeTupleS fuel rest (.mk acc.kind items2)
      | _ => some (.error "json: cannot unmarshal value into Go value of type []*main.Schema")
    else some (.error (unknownFieldErr k))

/-- Strict decode into `ReferenceSchema` (`kind`, `name`; `Found` carries
no tag and is only set by resolution). -/
def decodeReferenceS : Nat → List (String × Json) → ReferenceSchema → Option (Except String ReferenceSchema)
| 0, _, _ => none
| fuel + 1, fs, acc =>
  match fs with
  | [] => some (.ok acc)
  | (k, v) :: rest =>
    if k = "kind" then
      match expectString v with
      | .error e => some (.error e)
      | .ok s => decodeReferenceS fuel rest (.mk s acc.name acc.found)
    else if k = "name" then
      match expectString v with
      | .error e => some (.error e)
      | .ok s => decodeReferenceS fuel rest (.mk acc.kind s acc.found)
    else some (.error (unknownFieldErr k))

/-- Strict decode into `BaseSchema` (`kind`, `name`). -/
def decodeBaseS : Nat → List (String × Json) → BaseSchema → Option (Except String BaseSchema)
| 0, _, _ => none
| fuel + 1, fs, acc =>
  match fs with
  | [] => some (.ok acc)
  | (k, v) :: rest =>
    if k = "kind" then
      match expectString v with
      | .error e => some (.error e)
      | .ok s => decodeBaseS fuel rest (.mk s acc.name)
    else if k = "name" then
      match expectString v with
      | .error e => some (.error e)
      | .ok s => decodeBaseS fuel rest (.mk acc.kind s)
    else some (.error (unknownFieldErr k))

/-- Strict decode into `MapSchema` (`kind`, `key`, `value`). -/
def decodeMapS : Nat → List (String × Json) → MapSchema → Option (Except String MapSchema)
| 0, _, _ => none
| fuel + 1, fs, acc =>
  match fs with
  | [] => some (.ok acc)
  | (k, v) :: rest =>
    if k = "kind" then
      match expectString v with
      | .error e => some (.error e)
      | .ok s => decodeMapS fuel rest (.mk s acc.key acc.value)
    else if k = "key" then
      match v with
      | .null => decodeMapS fuel rest (.mk acc.kind none acc.value)
      | _ =>
        rbind (decodeSchema fuel v) fun sch =>
        decodeMapS fuel rest (.mk acc.kind (some sch) acc.value)
    else if k = "value" then
      match v with
      | .null => decodeMapS fuel rest (.mk acc.kind acc.key none)
      | _ =>
        rbind (decodeSchema fuel v) fun sch =>
        decodeMapS fuel rest (.mk acc.kind acc.key (some sch))
    else some (.error (unknownFieldErr k))

/-- Strict decode into `StringLiteralSchema` (`kind`, `value`). -/
def decodeStringLitS : Nat → List (String × Json) → StringLiteralSchema → Option (Except String StringLiteralSchema)
| 0, _, _ => none
| fuel + 1, fs, acc =>
  match fs with
  | [] => some (.ok acc)
  | (k, v) :: rest =>
    if k = "kind" then
      match expectString v with
      | .error e => some (.error e)
      | .ok s => decodeStringLitS fuel rest (.mk s acc.value)
    else if k = "value" then
      match expectString v with
      | .error e => some (.error e)
      | .ok s => decodeStringLitS fuel rest (.mk acc.kind s)
    else some (.error (unknownFieldErr k))

/-- Strict decode into `LiteralSchema` (`kind`, `value` of type
`interface\x7b\x7d`, kept as raw JSON). -/
def decodeLiteralS : Nat → List (String × Json) → LiteralSchema → Option (Except String LiteralSchema)
| 0, _, _ => none
| fuel + 1, fs, acc =>
  match fs with
  | [] => some (.ok acc)
  | (k, v) :: rest =>
    if k = "kind" then
      match expectString v with
      | .error e => some (.error e)
      | .ok s => decodeLiteralS fuel rest (.mk s acc.value)
    else if k = "value" then
      decodeLiteralS fuel rest (.mk acc.kind v)
    else some (.error (unknownFieldErr k))

end

/-- The nine `kind` discriminator values `Schema.UnmarshalJSON` recognizes. -/
def schemaKinds : List String :=
  ["array", "or", "and", "reference", "base", "map", "stringLiteral", "literal", "tuple"]

mutual

/-- Names of the reference nodes a `ResolveRefs` traversal of a schema
visits, in visit order (mirrors the traversal exactly: a reference
node stops, an array node descends only into its element, and the
or/and/map/tuple blocks run in sequence). -/
def refNamesS : Schema → List String
| .mk _ _ _ r a o an mp _ _ t =>
  match r with
  | some ref => [ref.name]
  | none =>
  match a with
  | some (.mk _ el) => refNamesOpt el
  | none =>
    refNamesOr o ++ refNamesAnd an ++ (refNamesMap mp ++ refNamesTuple t)

/-- `refNamesS` under an optional schema (empty when absent). -/
def refNamesOpt : Option Schema → List String
| none => []
| some e => refNamesS e

/-- Reference names of an optional or payload. -/
def refNamesOr : Option OrSchema → List String
| none => []
| some (.mk _ xs) => refNamesList xs

/-- Reference names of an optional and payload. -/
def refNamesAnd : Option AndSchema → List String
| none => []
| some (.mk _ xs) => refNamesList xs

/-- Reference names of an optional map payload. -/
def refNamesMap : Option MapSchema → List String
| none => []
| some (.mk _ ky vl) => refNamesOpt ky ++ refNamesOpt vl

/-- Reference names of an optional tuple payload. -/
def refNamesTuple : Option TupleSchema → List String
| none => []
| some (.mk _ xs) => refNamesList xs

/-- Reference names over a list of schemas. -/
def refNamesList : List Schema → List String
| [] => []
| x :: xs => refNamesS x ++ refNamesList xs

end

/-- Reference names reachable from a property list (the schemas
`Model.Structure` resolves). -/
def propRefNames : List Property → List String
| [] => []
| p :: rest =>
  (match p.type with | none => [] | some t => refNamesS t) ++ propRefNames rest

/-- Reference names reachable from a structure's properties. -/
def structRefNames (st : Structure) : List String := propRefNames st.properties

/-- A name is defined when some structure, enumeration, or type alias bears it. -/
def definedName (m : Model) (n : String) : Bool :=
  (findStructure m n).isSome || (findEnumeration m n).isSome || (findTypeAlias m n).isSome

/-- Names reachable from a root name by following structure references:
the root itself, and, from any reachable name naming a structure, every
reference name in that structure's properties. -/
inductive ReachName (m : Model) (root : String) : String → Prop where
| refl : ReachName m root root
| step (a b : String) (sa : Structure) : ReachName m root a →
    findStructure m a = some sa → b ∈ structRefNames sa → ReachName m root b

/-- The structure-reference graph admits a rank function decreasing along
reference edges between structures reachable from `root`: no reference
cycle through structures is reachable. -/
def AcyclicFrom (m : Model) (root : String) : Prop :=
  ∃ rank : String → Nat, ∀ a b sa, ReachName m root a → findStructure m a = some sa →
    b ∈ structRefNames sa → (findStructure m b).isSome → rank b < rank a

mutual

/-- Deep well-formedness a decoded real meta-model satisfies, in the part
resolution traverses: composite nodes carry their payload (array
elements and map keys/values are present), recursively. -/
def wfDeep : Schema → Bool
| .mk _ _ _ r a o an mp _ _ t =>
  match r with
  | some _ => true
  | none =>
  match a with
  | some (.mk _ el) => wfDeepReq el
  | none =>
    wfDeepOr o && wfDeepAnd an && (wfDeepMap mp && wfDeepTuple t)

/-- `wfDeep` of a required optional schema (absent means ill-formed). -/
def wfDeepReq : Option Schema → Bool
| none => false
| some e => wfDeep e

/-- `wfDeep` of an optional or payload. -/
def wfDeepOr : Option OrSchema → Bool
| none => true
| some (.mk _ xs) => wfDeepList xs

/-- `wfDeep` of an optional and payload. -/
def wfDeepAnd : Option AndSchema → Bool
| none => true
| some (.mk _ xs) => wfDeepList xs

/-- `wfDeep` of an optional map payload. -/
def wfDeepMap : Option MapSchema → Bool
| none => true
| some (.mk _ ky vl) => wfDeepReq ky && wfDeepReq vl

/-- `wfDeep` of an optional tuple payload. -/
def wfDeepTuple : Option TupleSchema → Bool
| none => true
| some (.mk _ xs) => wfDeepList xs

/-- `wfDeep` over a list of schemas. -/
def wfDeepList : List Schema → Bool
| [] => true
| x :: xs => wfDeep x && wfDeepList xs

end

/-- Top-level kind consistency the emitter relies on for a property type:
a `reference`-kind node carries its reference payload and a `base`-kind
node carries its base payload (guaranteed by the strict decoder). -/
def wfPropTop (s : Schema) : Bool :=
  (s.kind != "reference" || s.reference.isSome) && (s.kind != "base" || s.base.isSome)

/-- Well-formedness of one catalog property: its type is present,
deeply populated, and top-level kind-consistent. -/
def wfProp (p : Property) : Bool :=
  match p.type with
  | none => false
  | some t => wfDeep t && wfPropTop t

/-- `wfProp` over a property list. -/
def wfProps : List Property → Bool
| [] => true
| p :: rest => wfProp p && wfProps rest

/-- Well-formedness of a decoded catalog's structures. -/
def wfModel (m : Model) : Bool :=
  m.structures.all fun st => wfProps st.properties

mutual

/-- Condition under which `PrintStruct` runs to completion without a
panic: each property has a type; a `reference`-kind type carries its
payload, a resolution handle, and a target in one of the three
namespaces (recursing into a structure target); a `base`-kind type
carries its payload. -/
inductive EmitOK : Structure → Prop where
| intro (be : BaseElement) (nm : String) (props : List Property) (docs : String)
    (exts mixs : List Schema) : EmitOKProps props → EmitOK (.mk be nm props docs exts mixs)

/-- `EmitOK` over a property list. -/
inductive EmitOKProps : List Property → Prop where
| nil : EmitOKProps []
| cons (p : Property) (rest : List Property) : EmitOKProp p → EmitOKProps rest →
    EmitOKProps (p :: rest)

/-- `EmitOK` for one property. -/
inductive EmitOKProp : Property → Prop where
| nonRef (be : BaseElement) (nm : String) (t : Schema) (opt : Bool) :
    t.kind ≠ "reference" → (t.kind = "base" → t.base.isSome = true) →
    EmitOKProp (.mk be nm (some t) opt)
| refStruct (be : BaseElement) (nm : String) (t : Schema) (opt : Bool)
    (r : ReferenceSchema) (a : AnyRef) (stB : Structure) :
    t.kind = "reference" → t.reference = some r → r.found = some a →
    a.struct = some stB → EmitOK stB → EmitOKProp (.mk be nm (some t) opt)
| refOther (be : BaseElement) (nm : String) (t : Schema) (opt : Bool)
    (r : ReferenceSchema) (a : AnyRef) :
    t.kind = "reference" → t.reference = some r → r.found = some a →
    a.struct = none → (a.enum.isSome || a.aliasT.isSome) = true →
    EmitOKProp (.mk be nm (some t) opt)

end

mutual

/-- Clear every `optional` flag reachable in a schema (through composite
nodes and through resolution handles); the emitted text never reads
the flag, which this normalization makes provable. -/
def clearOptS : Schema → Schema
| .mk be k b r a o an mp sl l t =>
  .mk be k b (clearOptRefOpt r) (clearOptArrOpt a) (clearOptOrOpt o) (clearOptAndOpt an)
    (clearOptMapOpt mp) sl l (clearOptTupleOpt t)

/-- `clearOptS` under an optional schema. -/
def clearOptOptS : Option Schema → Option Schema
| none => none
| some s => some (clearOptS s)

/-- `clearOptS` through an optional reference payload's handle. -/
def clearOptRefOpt : Option ReferenceSchema → Option ReferenceSchema
| none => none
| some (.mk rk rn fnd) => some (.mk rk rn (clearOptFnd fnd))

/-- `clearOptS` through an optional resolution handle. -/
def clearOptFnd : Option AnyRef → Option AnyRef
| none => none
| some ar => some (clearOptRef ar)

/-- `clearOptS` under an optional array payload. -/
def clearOptArrOpt : Option ArraySchema → Option ArraySchema
| none => none
| some (.mk ak el) => some (.mk ak (clearOptOptS el))

/-- `clearOptS` under an optional or payload. -/
def clearOptOrOpt : Option OrSchema → Option OrSchema
| none => none
| some (.mk k1 xs) => some (.mk k1 (clearOptList xs))

/-- `clearOptS` under an optional and payload. -/
def clearOptAndOpt : Option AndSchema → Option AndSchema
| none => none
| some (.mk k1 xs) => some (.mk k1 (clearOptList xs))

/-- `clearOptS` under an optional map payload. -/
def clearOptMapOpt : Option MapSchema → Option MapSchema
| none => none
| some (.mk k1 ky vl) => some (.mk k1 (clearOptOptS ky) (clearOptOptS vl))

/-- `clearOptS` under an optional tuple payload. -/
def clearOptTupleOpt : Option TupleSchema → Option TupleSchema
| none => none
| some (.mk k1 xs) => some (.mk k1 (clearOptList xs))

/-- `clearOptS` over a schema list. -/
def clearOptList : List Schema → List Schema
| [] => []
| x :: xs => clearOptS x :: clearOptList xs

/-- Clear optional flags behind a resolution handle. -/
def clearOptRef : AnyRef → AnyRef
| .mk n st en al => .mk n (clearOptStructOpt st) en al

/-- `clearOptStruct` under an optional structure. -/
def clearOptStructOpt : Option Structure → Option Structure
| none => none
| some s => some (clearOptStruct s)

/-- Clear every optional flag in a structure (and in the structures its
resolved references point to). -/
def clearOptStruct : Structure → Structure
| .mk be n props docs exts mixs =>
  .mk be n (clearOptProps props) docs exts mixs

/-- `clearOptStruct`'s property loop. -/
def clearOptProps : List Property → List Property
| [] => []
| p :: rest => clearOptProp p :: clearOptProps rest

/-- Clear one property's optional flag and those reachable from its type. -/
def clearOptProp : Property → Property
| .mk be n ty _ => .mk be n (clearOptOptS ty) false

end

/-- A minimal decodable field list for each schema kind (used to probe the
decoder's treatment of the shared metadata fields). -/
def minimalFields : String → List (String × Json)
| "array" => [("kind", .str "array"), ("element", .obj [("kind", .str "base"), ("name", .str "string")])]
| "or" => [("kind", .str "or"), ("items", .arr [])]
| "and" => [("kind", .str "and"), ("items", .arr [])]
| "reference" => [("kind", .str "reference"), ("name", .str "X")]
| "map" => [("kind", .str "map"), ("key", .obj [("kind", .str "base"), ("name", .str "string")]),
    ("value", .obj [("kind", .str "base"), ("name", .str "string")])]
| "stringLiteral" => [("kind", .str "stringLiteral"), ("value", .str "v")]
| "literal" => [("kind", .str "literal"), ("value", .arr [])]
| "tuple" => [("kind", .str "tuple"), ("items", .arr [])]
| _ => [("kind", .str "base"), ("name", .str "string")]

/-- One probe entry per shared metadata field of `BaseElement`. -/
def metaProbeFields : List (String × Json) :=
  [("since", .str "3.0"), ("proposed", .bool true), ("deprecated", .str "d"),
   ("documentation", .str "doc"), ("sinceTags", .arr [.str "t"])]

/-- For every schema kind, decoding a fragment extended with any shared
metadata field fails with the strict decoder's unknown-field error. -/
def decodeRejectsMeta : Bool :=
  schemaKinds.all fun k =>
    metaProbeFields.all fun fld =>
      match decodeSchema 9 (.obj (minimalFields k ++ [fld])) with
      | some (.error e) => e == ("unmarshal schema type " ++ k ++ ": " ++ unknownFieldErr fld.1)
      | _ => false

/-- For every schema kind, decoding the minimal fragment succeeds and
leaves the node's embedded metadata at the zero value. -/
def decodeNeverPopulatesMeta : Bool :=
  schemaKinds.all fun k =>
    match decodeSchema 9 (.obj (minimalFields k)) with
    | some (.ok s) => s.baseElement == BaseElement.zero
    | _ => false

/-- A `base string` schema node as the decoder produces it. -/
def schStr : Schema :=
  .mk BaseElement.zero "base" (some (.mk "base" "string")) none none none none none none none none

/-- A `base integer` schema node as the decoder produces it. -/
def schInt : Schema :=
  .mk BaseElement.zero "base" (some (.mk "base" "integer")) none none none none none none none none

/-- An unresolved reference node naming `B`. -/
def schRefB : Schema :=
  .mk BaseElement.zero "reference" none (some (.mk "reference" "B" none)) none none none none none none none

/-- An unresolved reference node naming `A`. -/
def schRefA : Schema :=
  .mk BaseElement.zero "reference" none (some (.mk "reference" "A" none)) none none none none none none none

/-- An unresolved reference node naming the absent `Zzz`. -/
def schRefZzz : Schema :=
  .mk BaseElement.zero "reference" none (some (.mk "reference" "Zzz" none)) none none none none none none none

/-- Structure `B` with one required base-string property `line`. -/
def structB : Structure :=
  .mk BaseElement.zero "B" [.mk BaseElement.zero "line" (some schStr) false] "" [] []

/-- Structure `A` with one optional property `b` referencing `B`. -/
def structA : Structure :=
  .mk BaseElement.zero "A" [.mk BaseElement.zero "b" (some schRefB) true] "" [] []

/-- A small acyclic catalog holding `A` and `B`. -/
def mAB : Model := ⟨⟨"1.0"⟩, [], [structA, structB], [], [], []⟩

/-- The self-referencing property list of the cyclic catalog. -/
def cycProps : List Property := [.mk BaseElement.zero "self" (some schRefA) false]

/-- Structure `A` referencing itself. -/
def structACyc : Structure := .mk BaseElement.zero "A" cycProps "" [] []

/-- A catalog whose only structure references itself: every transitively
referenced name resolves, yet resolution recurses forever. -/
def mCyc : Model := ⟨⟨"1.0"⟩, [], [structACyc], [], [], []⟩

/-- Structure `A` referencing the missing name `Zzz`. -/
def structADangling : Structure :=
  .mk BaseElement.zero "A" [.mk BaseElement.zero "z" (some schRefZzz) false] "" [] []

/-- A catalog in which `A` exists but references the absent `Zzz`:
looking up `A` fails even though a definition bears the name `A`. -/
def mDangling : Model := ⟨⟨"1.0"⟩, [], [structADangling], [], [], []⟩

/-- An enumeration named `Dup`, and a type alias named `Dup`, colliding
with a structure named `Dup`; used to witness lookup precedence. -/
def enumDup : Enumeration := .mk BaseElement.zero "Dup" (some schStr) [] false

/-- The type alias side of the `Dup` collision. -/
def aliasDup : TypeAlias := .mk BaseElement.zero "Dup" (some schStr)

/-- The structure side of the `Dup` collision (no properties). -/
def structDup : Structure := .mk BaseElement.zero "Dup" [] "" [] []

/-- A catalog with the name `Dup` in all three namespaces and the name
`EDup` in the enumeration and alias namespaces. -/
def enumEDup : Enumeration := .mk BaseElement.zero "EDup" (some schStr) [] false

/-- The alias shadowed by `enumEDup`. -/
def aliasEDup : TypeAlias := .mk BaseElement.zero "EDup" (some schStr)

/-- Catalog with colliding names across namespaces. -/
def mDup : Model := ⟨⟨"1.0"⟩, [], [structDup], [enumDup, enumEDup], [], [aliasDup, aliasEDup]⟩

/-- Structure with one `base integer` property, whose emission the code
silently completes with an empty type name. -/
def structInt : Structure :=
  .mk BaseElement.zero "S1" [.mk BaseElement.zero "line" (some schInt) false] "" [] []

/-- The resolved copy of `A` produced by resolving it against `mAB`. -/
def resolvedA : Structure :=
  match resolveStructureF 10 mAB "A" with
  | some (.ok st) => st
  | _ => structA

/-- A catalog holding only the reference-free structure `B`. -/
def mB : Model := ⟨⟨"1.0"⟩, [], [structB], [], [], []⟩

theorem rbind_eq_some {α β : Type} {x : Option (Except String α)}
    {f : α → Option (Except String β)} {r : Except String β}
    (h : rbind x f = some r) :
    (∃ e, x = some (.error e) ∧ r = .error e) ∨ (∃ a, x = some (.ok a) ∧ f a = some r) := by
  match hx : x with
  | none => exact absurd h (by simp [rbind])
  | some (.error e) =>
    simp only [rbind, Option.some.injEq] at h
    exact Or.inl ⟨e, rfl, h.symm⟩
  | some (.ok a) => exact Or.inr ⟨a, rfl, h⟩

theorem rbind_mono {α β : Type} {x y : Option (Except String α)}
    {f g : α → Option (Except String β)}
    (hx : ∀ r, x = some r → y = some r)
    (hf : ∀ a r, f a = some r → g a = some r) :
    ∀ r, rbind x f = some r → rbind y g = some r := by
  intro r h
  rcases rbind_eq_some h with ⟨e, hxe, hre⟩ | ⟨a, hxa, hfa⟩
  · subst hre; rw [hx _ hxe]; rfl
  · rw [hx _ hxa]; exact hf a r hfa

theorem resolveMonoAll : ∀ fuel : Nat,
    (∀ m s r, resolveRefsF fuel m s = some r → resolveRefsF (fuel + 1) m s = some r) ∧
    (∀ m xs r, resolveItemsF fuel m xs = some r → resolveItemsF (fuel + 1) m xs = some r) ∧
    (∀ m o r, resolveOrF fuel m o = some r → resolveOrF (fuel + 1) m o = some r) ∧
    (∀ m an r, resolveAndF fuel m an = some r → resolveAndF (fuel + 1) m an = some r) ∧
    (∀ m mp r, resolveMapF fuel m mp = some r → resolveMapF (fuel + 1) m mp = some r) ∧
    (∀ m t r, resolveTupleF fuel m t = some r → resolveTupleF (fuel + 1) m t = some r) ∧
    (∀ m n r, anyRefF fuel m n = some r → anyRefF (fuel + 1) m n = some r) ∧
    (∀ m ps r, resolvePropsF fuel m ps = some r → resolvePropsF (fuel + 1) m ps = some r) ∧
    (∀ m n r, resolveStructureF fuel m n = some r → resolveStructureF (fuel + 1) m n = some r) := by
  intro fuel
  induction fuel with
  | zero =>
    refine ⟨?_, ?_, ?_, ?_, ?_, ?_, ?_, ?_, ?_⟩ <;> intro m x r h <;>
      simp [resolveRefsF, resolveItemsF, resolveOrF, resolveAndF, resolveMapF,
        resolveTupleF, anyRefF, resolvePropsF, resolveStructureF] at h
  | succ n ih =>
    obtain ⟨ihR, ihI, ihO, ihA, ihM, ihT, ihAny, ihP, ihS⟩ := ih
    refine ⟨?_, ?_, ?_, ?_, ?_, ?_, ?_, ?_, ?_⟩
    · intro m s r h
      rcases s with ⟨be, k, b, rr, a, o, an, mp, sl, l, t⟩
      rcases rr with _ | ref
      · rcases a with _ | ⟨ak, el⟩
        · simp only [resolveRefsF] at h ⊢
          refine rbind_mono (fun r0 h0 => ihO m o r0 h0) (fun o2 r0 h0 => ?_) r h
          refine rbind_mono (fun r1 h1 => ihA m an r1 h1) (fun an2 r1 h1 => ?_) r0 h0
          refine rbind_mono (fun r2 h2 => ihM m mp r2 h2) (fun mp2 r2 h2 => ?_) r1 h1
          refine rbind_mono (fun r3 h3 => ihT m t r3 h3) (fun t2 r3 h3 => h3) r2 h2
        · rcases el with _ | e
          · simpa only [resolveRefsF] using h
          · simp only [resolveRefsF] at h ⊢
            exact rbind_mono (fun r0 h0 => ihR m e r0 h0) (fun v r0 h0 => h0) r h
      · simp only [resolveRefsF] at h ⊢
        exact rbind_mono (fun r0 h0 => ihAny m ref.name r0 h0) (fun v r0 h0 => h0) r h
    · intro m xs r h
      rcases xs with _ | ⟨x, rest⟩
      · simpa only [resolveItemsF] using h
      · simp only [resolveItemsF] at h ⊢
        refine rbind_mono (fun r0 h0 => ihR m x r0 h0) (fun x2 r0 h0 => ?_) r h
        exact rbind_mono (fun r1 h1 => ihI m rest r1 h1) (fun v r1 h1 => h1) r0 h0
    · intro m o r h
      rcases o with _ | ⟨k1, xs⟩
      · simpa only [resolveOrF] using h
      · simp only [resolveOrF] at h ⊢
        exact rbind_mono (fun r0 h0 => ihI m xs r0 h0) (fun v r0 h0 => h0) r h
    · intro m o r h
      rcases o with _ | ⟨k1, xs⟩
      · simpa only [resolveAndF] using h
      · simp only [resolveAndF] at h ⊢
        exact rbind_mono (fun r0 h0 => ihI m xs r0 h0) (fun v r0 h0 => h0) r h
    · intro m o r h
      rcases o with _ | ⟨k1, ky, vl⟩
      · simpa only [resolveMapF] using h
      · simp only [resolveMapF] at h ⊢
        refine rbind_mono (fun r0 h0 => ?_) (fun k2 r0 h0 => ?_) r h
        · rcases ky with _ | k0
          · exact h0
          · exact ihR m k0 r0 h0
        · refine rbind_mono (fun r1 h1 => ?_) (fun v2 r1 h1 => h1) r0 h0
          rcases vl with _ | v0
          · exact h1
          · exact ihR m v0 r1 h1
    · intro m o r h
      rcases o with _ | ⟨k1, xs⟩
      · simpa only [resolveTupleF] using h
      · simp only [resolveTupleF] at h ⊢
        exact rbind_mono (fun r0 h0 => ihI m xs r0 h0) (fun v r0 h0 => h0) r h
    · intro m n r h
      simp only [anyRefF] at h ⊢
      revert h
      cases hfs : findStructure m n <;> intro h
      · exact h
      · exact rbind_mono (fun r0 h0 => ihS m n r0 h0) (fun v r0 h0 => h0) r h
    · intro m ps r h
      rcases ps with _ | ⟨p, rest⟩
      · simpa only [resolvePropsF] using h
      · rcases p with ⟨be, nm, ty, opt⟩
        simp only [resolvePropsF] at h ⊢
        refine rbind_mono (fun r0 h0 => ?_) (fun t2 r0 h0 => ?_) r h
        · rcases ty with _ | t0
          · exact h0
          · exact ihR m t0 r0 h0
        · exact rbind_mono (fun r1 h1 => ihP m rest r1 h1) (fun v r1 h1 => h1) r0 h0
    · intro m n r h
      simp only [resolveStructureF] at h ⊢
      revert h
      cases hfs : findStructure m n <;> intro h
      · exact h
      · rename_i st
        rcases st with ⟨be, nm, props, docs, exts, mixs⟩
        exact rbind_mono (fun r0 h0 => ihP m props r0 h0) (fun v r0 h0 => h0) r h

theorem resolveRefsF_mono {fuel fuel2 : Nat} {m : Model} {s : Schema} {r : Except String Schema}
    (hle : fuel ≤ fuel2) (h : resolveRefsF fuel m s = some r) : resolveRefsF fuel2 m s = some r := by
  induction hle with
  | refl => exact h
  | step _ ih => exact (resolveMonoAll _).1 m s r ih

theorem resolveItemsF_mono {fuel fuel2 : Nat} {m : Model} {xs : List Schema}
    {r : Except String (List Schema)}
    (hle : fuel ≤ fuel2) (h : resolveItemsF fuel m xs = some r) :
    resolveItemsF fuel2 m xs = some r := by
  induction hle with
  | refl => exact h
  | step _ ih => exact (resolveMonoAll _).2.1 m xs r ih

theorem anyRefF_mono {fuel fuel2 : Nat} {m : Model} {n : String} {r : Except String AnyRef}
    (hle : fuel ≤ fuel2) (h : anyRefF fuel m n = some r) : anyRefF fuel2 m n = some r := by
  induction hle with
  | refl => exact h
  | step _ ih => exact (resolveMonoAll _).2.2.2.2.2.2.1 m n r ih

theorem resolvePropsF_mono {fuel fuel2 : Nat} {m : Model} {ps : List Property}
    {r : Except String (List Property)}
    (hle : fuel ≤ fuel2) (h : resolvePropsF fuel m ps = some r) :
    resolvePropsF fuel2 m ps = some r := by
  induction hle with
  | refl => exact h
  | step _ ih => exact (resolveMonoAll _).2.2.2.2.2.2.2.1 m ps r ih

theorem resolveStructureF_mono {fuel fuel2 : Nat} {m : Model} {n : String}
    {r : Except String Structure}
    (hle : fuel ≤ fuel2) (h : resolveStructureF fuel m n = some r) :
    resolveStructureF fuel2 m n = some r := by
  induction hle with
  | refl => exact h
  | step _ ih => exact (resolveMonoAll _).2.2.2.2.2.2.2.2 m n r ih

theorem rbind_eq_ok {α β : Type} {x : Option (Except String α)}
    {f : α → Option (Except String β)} {b : β}
    (h : rbind x f = some (.ok b)) : ∃ a, x = some (.ok a) ∧ f a = some (.ok b) := by
  rcases rbind_eq_some h with ⟨e, _, hre⟩ | good
  · exact absurd hre (by simp)
  · exact good

theorem eraseAll : ∀ fuel : Nat,
    (∀ m s t, resolveRefsF fuel m s = some (.ok t) → eraseS t = eraseS s) ∧
    (∀ m xs ys, resolveItemsF fuel m xs = some (.ok ys) → eraseList ys = eraseList xs) ∧
    (∀ m o o2, resolveOrF fuel m o = some (.ok o2) → eraseOrOpt o2 = eraseOrOpt o) ∧
    (∀ m an an2, resolveAndF fuel m an = some (.ok an2) → eraseAndOpt an2 = eraseAndOpt an) ∧
    (∀ m mp mp2, resolveMapF fuel m mp = some (.ok mp2) → eraseMapOpt mp2 = eraseMapOpt mp) ∧
    (∀ m t t2, resolveTupleF fuel m t = some (.ok t2) → eraseTupleOpt t2 = eraseTupleOpt t) ∧
    (∀ m ps ps2, resolvePropsF fuel m ps = some (.ok ps2) → eraseProps ps2 = eraseProps ps) ∧
    (∀ m n st, resolveStructureF fuel m n = some (.ok st) →
      ∃ sa, findStructure m n = some sa ∧ eraseStruct st = eraseStruct sa) := by
  intro fuel
  induction fuel with
  | zero =>
    refine ⟨?_, ?_, ?_, ?_, ?_, ?_, ?_, ?_⟩ <;> intro m x y h <;>
      simp [resolveRefsF, resolveItemsF, resolveOrF, resolveAndF, resolveMapF,
        resolveTupleF, resolvePropsF, resolveStructureF] at h
  | succ n ih =>
    obtain ⟨ihR, ihI, ihO, ihA, ihM, ihT, ihP, ihS⟩ := ih
    refine ⟨?_, ?_, ?_, ?_, ?_, ?_, ?_, ?_⟩
    · intro m s t h
      rcases s with ⟨be, k, b, rr, a, o, an, mp, sl, l, tu⟩
      rcases rr with _ | ⟨rk, rn, rf⟩
      · rcases a with _ | ⟨ak, el⟩
        · simp only [resolveRefsF] at h
          obtain ⟨o2, ho, h⟩ := rbind_eq_ok h
          obtain ⟨an2, ha, h⟩ := rbind_eq_ok h
          obtain ⟨mp2, hm, h⟩ := rbind_eq_ok h
          obtain ⟨t2, ht, h⟩ := rbind_eq_ok h
          simp only [Option.some.injEq, Except.ok.injEq] at h
          subst h
          simp only [eraseS]
          rw [ihO m o o2 ho, ihA m an an2 ha, ihM m mp mp2 hm, ihT m tu t2 ht]
        · rcases el with _ | e
          · simp [resolveRefsF, ArraySchema.element, rbind] at h
          · simp only [resolveRefsF, ArraySchema.element, ArraySchema.kind] at h
            obtain ⟨el2, he, h⟩ := rbind_eq_ok h
            simp only [Option.some.injEq, Except.ok.injEq] at h
            subst h
            simp only [eraseS, eraseArrOpt, eraseOptS, ArraySchema.kind]
            rw [ihR m e el2 he]
      · simp only [resolveRefsF] at h
        obtain ⟨fnd, hf, h⟩ := rbind_eq_ok h
        simp only [Option.some.injEq, Except.ok.injEq] at h
        subst h
        rfl
    · intro m xs ys h
      rcases xs with _ | ⟨x, rest⟩
      · simp only [resolveItemsF, Option.some.injEq, Except.ok.injEq] at h
        subst h; rfl
      · simp only [resolveItemsF] at h
        obtain ⟨x2, hx, h⟩ := rbind_eq_ok h
        obtain ⟨rest2, hr, h⟩ := rbind_eq_ok h
        simp only [Option.some.injEq, Except.ok.injEq] at h
        subst h
        simp only [eraseList]
        rw [ihR m x x2 hx, ihI m rest rest2 hr]
    · intro m o o2 h
      rcases o with _ | ⟨k1, items⟩
      · simp only [resolveOrF, Option.some.injEq, Except.ok.injEq] at h
        subst h; rfl
      · simp only [resolveOrF] at h
        obtain ⟨xs2, hx, h⟩ := rbind_eq_ok h
        simp only [Option.some.injEq, Except.ok.injEq] at h
        subst h
        simp only [eraseOrOpt]
        rw [ihI m items xs2 hx]
    · intro m an an2 h
      rcases an with _ | ⟨k1, items⟩
      · simp only [resolveAndF, Option.some.injEq, Except.ok.injEq] at h
        subst h; rfl
      · simp only [resolveAndF] at h
        obtain ⟨xs2, hx, h⟩ := rbind_eq_ok h
        simp only [Option.some.injEq, Except.ok.injEq] at h
        subst h
        simp only [eraseAndOpt]
        rw [ihI m items xs2 hx]
    · intro m mp mp2 h
      rcases mp with _ | ⟨k1, ky, vl⟩
      · simp only [resolveMapF, Option.some.injEq, Except.ok.injEq] at h
        subst h; rfl
      · simp only [resolveMapF] at h
        obtain ⟨k2, hk, h⟩ := rbind_eq_ok h
        obtain ⟨v2, hv, h⟩ := rbind_eq_ok h
        simp only [Option.some.injEq, Except.ok.injEq] at h
        subst h
        rcases ky with _ | k0
        · exact absurd hk (by simp [rbind])
        · rcases vl with _ | v0
          · exact absurd hv (by simp [rbind])
          · simp only [eraseMapOpt, eraseOptS]
            rw [ihR m k0 k2 hk, ihR m v0 v2 hv]
    · intro m t t2 h
      rcases t with _ | ⟨k1, items⟩
      · simp only [resolveTupleF, Option.some.injEq, Except.ok.injEq] at h
        subst h; rfl
      · simp only [resolveTupleF] at h
        obtain ⟨xs2, hx, h⟩ := rbind_eq_ok h
        simp only [Option.some.injEq, Except.ok.injEq] at h
        subst h
        simp only [eraseTupleOpt]
        rw [ihI m items xs2 hx]
    · intro m ps ps2 h
      rcases ps with _ | ⟨⟨be, nm, ty, opt⟩, rest⟩
      · simp only [resolvePropsF, Option.some.injEq, Except.ok.injEq] at h
        subst h; rfl
      · simp only [resolvePropsF] at h
        obtain ⟨t2, ht, h⟩ := rbind_eq_ok h
        obtain ⟨rest2, hr, h⟩ := rbind_eq_ok h
        simp only [Option.some.injEq, Except.ok.injEq] at h
        subst h
        rcases ty with _ | t0
        · exact absurd ht (by simp [rbind])
        · simp only [eraseProps, List.map, eraseProp, eraseOptS]
          rw [ihR m t0 t2 ht]
          have := ihP m rest rest2 hr
          simp only [eraseProps] at this
          rw [this]
    · intro m n st h
      revert h
      cases hfs : findStructure m n <;> intro h
      · exact absurd h (by simp [resolveStructureF, hfs])
      · rename_i sa
        rcases sa with ⟨be, nm, props, docs, exts, mixs⟩
        simp only [resolveStructureF, hfs] at h
        obtain ⟨props2, hp, h⟩ := rbind_eq_ok h
        simp only [Option.some.injEq, Except.ok.injEq] at h
        subst h
        refine ⟨.mk be nm props docs exts mixs, rfl, ?_⟩
        simp only [eraseStruct]
        rw [ihP m props props2 hp]

/-- C9: resolution is a pure enrichment — the only difference between a
schema (or a looked-up structure) before and after resolution is the
resolution handles attached to reference nodes: erasing every handle
from the output gives back exactly the erased input, so every other
field of every definition and node is unchanged. -/
theorem C9_resolution_frame :
    (∀ fuel m s t, resolveRefsF fuel m s = some (.ok t) → eraseS t = eraseS s) ∧
    (∀ fuel m n st, resolveStructureF fuel m n = some (.ok st) →
      ∃ sa, findStructure m n = some sa ∧ eraseStruct st = eraseStruct sa) :=
  ⟨fun fuel m s t h => (eraseAll fuel).1 m s t h,
   fun fuel m n st h => (eraseAll fuel).2.2.2.2.2.2.2 m n st h⟩

/-- Witness for C9: the concrete resolution of `A` against `mAB` differs
from the stored `A` only in resolution handles. -/
theorem C9_witness :
    ∃ sa, findStructure mAB "A" = some sa ∧ eraseStruct resolvedA = eraseStruct sa :=
  C9_resolution_frame.2 10 mAB "A" resolvedA rfl

theorem printPropsR_cons_ok {p : Property} {rest : List Property} {pre : String}
    {types : List String} (h : printPropsR (p :: rest) = .ok (pre, types)) :
    ∃ extra tn pre2 types2, emitPropR p = .ok (extra, tn) ∧
      printPropsR rest = .ok (pre2, types2) ∧
      pre = extra ++ pre2 ∧ types = fieldLine (toGoPascal p.name) tn p.name :: types2 := by
  simp only [printPropsR] at h
  revert h
  cases hep : emitPropR p with
  | error e => intro h; exact absurd h (by simp)
  | ok etn =>
    rcases etn with ⟨extra, tn⟩
    cases hrest : printPropsR rest with
    | error e => intro h; exact absurd h (by simp)
    | ok pt =>
      rcases pt with ⟨pre2, types2⟩
      intro h
      simp only [Except.ok.injEq, Prod.mk.injEq] at h
      exact ⟨extra, tn, pre2, types2, rfl, rfl, h.1.symm, h.2.symm⟩

theorem printPropsR_append_ok {l1 l2 : List Property} {pre : String} {types : List String}
    (h : printPropsR (l1 ++ l2) = .ok (pre, types)) :
    ∃ pre1 types1 pre2 types2, printPropsR l1 = .ok (pre1, types1) ∧
      printPropsR l2 = .ok (pre2, types2) ∧ pre = pre1 ++ pre2 ∧ types = types1 ++ types2 := by
  induction l1 generalizing pre types with
  | nil => exact ⟨"", [], pre, types, rfl, h, by simp, by simp⟩
  | cons p rest ih =>
    rw [List.cons_append] at h
    obtain ⟨extra, tn, preR, typesR, hep, hrest, hpre, htypes⟩ := printPropsR_cons_ok h
    obtain ⟨pre1, types1, pre2, types2, h1, h2, hp, ht⟩ := ih hrest
    refine ⟨extra ++ pre1, fieldLine (toGoPascal p.name) tn p.name :: types1, pre2, types2,
      ?_, h2, ?_, ?_⟩
    · simp only [printPropsR, hep, h1]
    · rw [hpre, hp, String.append_assoc]
    · rw [htypes, ht]; rfl

/-- C5: when emitting a structure `A` succeeds and some property of `A`
references structure `B` through its resolution handle (`B` itself
containing no reference properties), `B`'s complete emitted declaration
appears in the output before `A`'s own declaration header — the
emission is depth-first and pre-order. -/
theorem C5_preorder (A B : Structure) (l1 l2 : List Property) (p : Property)
    (t : Schema) (r : ReferenceSchema) (a : AnyRef) (out : String)
    (hprops : A.properties = l1 ++ p :: l2)
    (hty : p.type = some t) (hkind : t.kind = "reference") (href : t.reference = some r)
    (hfnd : r.found = some a) (hstruct : a.struct = some B)
    (hnorefB : B.properties.all (fun q => match q.type with
      | some tq => tq.kind != "reference" | none => true) = true)
    (hout : printStructR A = .ok out) :
    ∃ declB u w1 w2, printStructR B = .ok declB ∧
      out = u ++ declB ++ w1 ++ ("type " ++ A.name ++ " struct \x7b\n") ++ w2 := by
  rcases A with ⟨beA, nA, propsA, dA, eA, mA⟩
  simp only [Structure.properties] at hprops
  subst hprops
  simp only [printStructR] at hout
  revert hout
  cases hpp : printPropsR (l1 ++ p :: l2) with
  | error e => intro hout; exact absurd hout (by simp)
  | ok pt =>
    rcases pt with ⟨pre, types⟩
    intro hout
    simp only [Except.ok.injEq] at hout
    obtain ⟨pre1, types1, preR, typesR, h1, hR, hpre, htypes⟩ := printPropsR_append_ok hpp
    obtain ⟨extra, tn, pre2, types2, hep, h2, hpre2, htypes2⟩ := printPropsR_cons_ok hR
    rcases p with ⟨bep, np, tyP, optP⟩
    simp only [Property.type] at hty
    subst hty
    rcases t with ⟨bet, kt, bt, rt, at_, ot, ant, mpt, slt, lt_, tt⟩
    simp only [Schema.kind] at hkind
    subst hkind
    simp only [Schema.reference] at href
    subst href
    rcases r with ⟨rk, rn, rf⟩
    simp only [ReferenceSchema.found] at hfnd
    subst hfnd
    rcases a with ⟨an0, ast, aen, aal⟩
    simp only [AnyRef.struct] at hstruct
    subst hstruct
    revert hep
    cases hpb : printStructR B with
    | error e => intro hep; simp [emitPropR, hpb] at hep
    | ok declB =>
      intro hep
      simp only [emitPropR, hpb] at hep
      simp only [if_true, Except.ok.injEq, Prod.mk.injEq] at hep
      refine ⟨declB, pre1, pre2,
        String.join (types.map (fun s => "\t" ++ s ++ "\n")) ++ "\x7d\n", rfl, ?_⟩
      rw [← hout, hpre, hpre2, ← hep.1]
      simp [Structure.name, String.append_assoc]

/-- Witness for C5 on the concrete catalog `mAB`: emitting the resolved
`A` writes `B`'s declaration before `A`'s header. -/
theorem C5_witness :
    ∃ declB u w1 w2, printStructR structB = .ok declB ∧
      ("type B struct \x7b\n\tLine string `json:\"line,omitempty\"\n\x7d\n" ++
        "type A struct \x7b\n\tB *B `json:\"b,omitempty\"\n\x7d\n") =
        u ++ declB ++ w1 ++ ("type " ++ resolvedA.name ++ " struct \x7b\n") ++ w2 :=
  C5_preorder resolvedA structB [] [] _ _ _ _ _ rfl rfl rfl rfl rfl rfl (by rfl) rfl

theorem clearOptProp_name (p : Property) : (clearOptProp p).name = p.name := by
  rcases p with ⟨be, nm, ty, o⟩
  simp [clearOptProp, Property.name]

theorem clearOptStruct_name (st : Structure) : (clearOptStruct st).name = st.name := by
  rcases st with ⟨be, nm, props, docs, exts, mixs⟩
  simp [clearOptStruct, Structure.name]

theorem clearOpt_print_eq : ∀ N : Nat,
    (∀ st : Structure, sizeOf st ≤ N → printStructR (clearOptStruct st) = printStructR st) ∧
    (∀ ps : List Property, sizeOf ps ≤ N → printPropsR (clearOptProps ps) = printPropsR ps) ∧
    (∀ p : Property, sizeOf p ≤ N → emitPropR (clearOptProp p) = emitPropR p) := by
  intro N
  induction N with
  | zero =>
    refine ⟨?_, ?_, ?_⟩ <;> intro x hx
    · rcases x with ⟨be, nm, props, docs, exts, mixs⟩
      simp at hx
    · rcases x with _ | ⟨p, rest⟩ <;> simp at hx
    · rcases x with ⟨be, nm, ty, o⟩
      simp at hx
  | succ n ih =>
    obtain ⟨ihS, ihP, ihE⟩ := ih
    refine ⟨?_, ?_, ?_⟩
    · intro st hst
      rcases st with ⟨be, nm, props, docs, exts, mixs⟩
      have hprops : sizeOf props ≤ n := by simp at hst; omega
      simp only [clearOptStruct, printStructR]
      rw [ihP props hprops]
    · intro ps hps
      rcases ps with _ | ⟨p, rest⟩
      · rfl
      · have hp : sizeOf p ≤ n := by simp at hps; omega
        have hr : sizeOf rest ≤ n := by simp at hps; omega
        simp only [clearOptProps, printPropsR]
        rw [ihE p hp, ihP rest hr, clearOptProp_name]
    · intro p hp
      rcases p with ⟨be, nm, ty, o⟩
      rcases ty with _ | t
      · simp [clearOptProp, clearOptOptS, emitPropR]
      · rcases t with ⟨tbe, k, b, r, a, o2, an, mp, sl, l, tu⟩
        rcases r with _ | ⟨rk, rn, rf⟩
        · simp [clearOptProp, clearOptOptS, clearOptS, clearOptRefOpt, emitPropR]
        · rcases rf with _ | ⟨an0, ast, aen, aal⟩
          · simp [clearOptProp, clearOptOptS, clearOptS, clearOptRefOpt, clearOptFnd, emitPropR]
          · rcases ast with _ | stB
            · simp [clearOptProp, clearOptOptS, clearOptS, clearOptRefOpt, clearOptFnd,
                clearOptRef, clearOptStructOpt, emitPropR]
            · have hstB : sizeOf stB ≤ n := by simp at hp; omega
              simp [clearOptProp, clearOptOptS, clearOptS, clearOptRefOpt, clearOptFnd,
                clearOptRef, clearOptStructOpt, emitPropR, ihS stB hstB, clearOptStruct_name]

theorem printProps_shape : ∀ (ps : List Property) (pre : String) (types : List String),
    printPropsR ps = .ok (pre, types) →
    List.Forall₂ (fun (p : Property) (line : String) =>
      ∃ tn, line = fieldLine (toGoPascal p.name) tn p.name) ps types := by
  intro ps
  induction ps with
  | nil =>
    intro pre types h
    simp only [printPropsR, Except.ok.injEq, Prod.mk.injEq] at h
    rw [← h.2]
    exact List.Forall₂.nil
  | cons p rest ih =>
    intro pre types h
    obtain ⟨extra, tn, pre2, types2, hep, hrest, hpre, htypes⟩ := printPropsR_cons_ok h
    subst htypes
    exact List.Forall₂.cons ⟨tn, rfl⟩ (ih pre2 types2 hrest)

/-- C10: the emitted text never reads the optional flag — clearing every
optional flag in a structure (and everything its resolution handles
reach) leaves the emitted text identical — and every emitted field
line is built by `fieldLine`, whose serialization tag always carries
the `,omitempty` marker, for required and optional properties alike. -/
theorem C10_optional_ignored :
    (∀ st : Structure, printStructR (clearOptStruct st) = printStructR st) ∧
    (∀ (ps : List Property) (pre : String) (types : List String),
      printPropsR ps = .ok (pre, types) →
      List.Forall₂ (fun (p : Property) (line : String) =>
        ∃ tn, line = fieldLine (toGoPascal p.name) tn p.name) ps types) :=
  ⟨fun st => (clearOpt_print_eq (sizeOf st)).1 st (Nat.le_refl _),
   printProps_shape⟩

/-- Witness for C10 at the concrete resolved structure `A` and the
properties of `B`. -/
theorem C10_witness :
    printStructR (clearOptStruct resolvedA) = printStructR resolvedA ∧
    List.Forall₂ (fun (p : Property) (line : String) =>
      ∃ tn, line = fieldLine (toGoPascal p.name) tn p.name) structB.properties
      ["Line string `json:\"line,omitempty\""] :=
  ⟨C10_optional_ignored.1 resolvedA,
   C10_optional_ignored.2 structB.properties "" _ rfl⟩

theorem resolveOrF_mono {fuel fuel2 : Nat} {m : Model} {o : Option OrSchema}
    {r : Except String (Option OrSchema)}
    (hle : fuel ≤ fuel2) (h : resolveOrF fuel m o = some r) : resolveOrF fuel2 m o = some r := by
  induction hle with
  | refl => exact h
  | step _ ih => exact (resolveMonoAll _).2.2.1 m o r ih

theorem resolveAndF_mono {fuel fuel2 : Nat} {m : Model} {o : Option AndSchema}
    {r : Except String (Option AndSchema)}
    (hle : fuel ≤ fuel2) (h : resolveAndF fuel m o = some r) : resolveAndF fuel2 m o = some r := by
  induction hle with
  | refl => exact h
  | step _ ih => exact (resolveMonoAll _).2.2.2.1 m o r ih

theorem resolveMapF_mono {fuel fuel2 : Nat} {m : Model} {o : Option MapSchema}
    {r : Except String (Option MapSchema)}
    (hle : fuel ≤ fuel2) (h : resolveMapF fuel m o = some r) : resolveMapF fuel2 m o = some r := by
  induction hle with
  | refl => exact h
  | step _ ih => exact (resolveMonoAll _).2.2.2.2.1 m o r ih

theorem resolveTupleF_mono {fuel fuel2 : Nat} {m : Model} {o : Option TupleSchema}
    {r : Except String (Option TupleSchema)}
    (hle : fuel ≤ fuel2) (h : resolveTupleF fuel m o = some r) :
    resolveTupleF fuel2 m o = some r := by
  induction hle with
  | refl => exact h
  | step _ ih => exact (resolveMonoAll _).2.2.2.2.2.1 m o r ih

theorem findStructure_mem {m : Model} {a : String} {sa : Structure}
    (h : findStructure m a = some sa) : sa ∈ m.structures ∧ (sa.name == a) = true := by
  simp only [findStructure] at h
  have h2 := List.find?_some h
  exact ⟨List.mem_of_find?_eq_some h, h2⟩

theorem anyRefF_completes_nostruct {m : Model} {n : String} (h : findStructure m n = none) :
    ∃ r, anyRefF 1 m n = some r := by
  simp only [anyRefF, h]
  cases findEnumeration m n
  · cases findTypeAlias m n
    · exact ⟨_, rfl⟩
    · exact ⟨_, rfl⟩
  · exact ⟨_, rfl⟩

theorem anyRefF_completes_struct {m : Model} {n : String} {fuel : Nat}
    {r0 : Except String Structure}
    (hs : (findStructure m n).isSome = true) (h : resolveStructureF fuel m n = some r0) :
    ∃ r, anyRefF (fuel + 1) m n = some r := by
  match hfs : findStructure m n with
  | none => rw [hfs] at hs; exact absurd hs (by simp)
  | some st =>
    simp only [anyRefF, hfs]
    rcases r0 with e | v
    · exact ⟨_, by rw [h]; rfl⟩
    · exact ⟨_, by rw [h]; rfl⟩

theorem resolveRefsF_completes (m : Model) : ∀ N : Nat,
    (∀ s : Schema, sizeOf s ≤ N →
      (∀ n ∈ refNamesS s, ∃ fuel r, anyRefF fuel m n = some r) →
      ∃ fuel r, resolveRefsF fuel m s = some r) ∧
    (∀ xs : List Schema, sizeOf xs ≤ N →
      (∀ n ∈ refNamesList xs, ∃ fuel r, anyRefF fuel m n = some r) →
      ∃ fuel r, resolveItemsF fuel m xs = some r) := by
  intro N
  induction N with
  | zero =>
    constructor <;> intro x hx
    · rcases x with ⟨be, k, b, rr, a, o, an, mp, sl, l, tu⟩
      simp at hx
    · rcases x with _ | ⟨y, ys⟩ <;> simp at hx
  | succ N ih =>
    constructor
    · intro s hs hnames
      rcases s with ⟨be, k, b, rr, a, o, an, mp, sl, l, tu⟩
      rcases rr with _ | ⟨rk, rn, rf⟩
      · rcases a with _ | ⟨ak, el⟩
        · -- sequential or/and/map/tuple blocks
          simp only [refNamesS, List.mem_append] at hnames
          -- or component
          have hor : ∃ fuel r, resolveOrF fuel m o = some r := by
            rcases o with _ | ⟨k1, xs⟩
            · exact ⟨1, .ok none, rfl⟩
            · have hxs : sizeOf xs ≤ N := by simp at hs; omega
              obtain ⟨f1, r1, h1⟩ := (ih).2 xs hxs
                (fun n hn => hnames n (Or.inl (Or.inl (by simp [refNamesOr]; exact hn))))
              rcases r1 with e | v
              · exact ⟨f1 + 1, _, by simp only [resolveOrF]; rw [h1]; rfl⟩
              · exact ⟨f1 + 1, _, by simp only [resolveOrF]; rw [h1]; rfl⟩
          have hand : ∃ fuel r, resolveAndF fuel m an = some r := by
            rcases an with _ | ⟨k1, xs⟩
            · exact ⟨1, .ok none, rfl⟩
            · have hxs : sizeOf xs ≤ N := by simp at hs; omega
              obtain ⟨f1, r1, h1⟩ := (ih).2 xs hxs
                (fun n hn => hnames n (Or.inl (Or.inr (by simp [refNamesAnd]; exact hn))))
              rcases r1 with e | v
              · exact ⟨f1 + 1, _, by simp only [resolveAndF]; rw [h1]; rfl⟩
              · exact ⟨f1 + 1, _, by simp only [resolveAndF]; rw [h1]; rfl⟩
          have hmap : ∃ fuel r, resolveMapF fuel m mp = some r := by
            rcases mp with _ | ⟨k1, ky, vl⟩
            · exact ⟨1, .ok none, rfl⟩
            · rcases ky with _ | k0
              · exact ⟨1, .error nilDeref, by simp only [resolveMapF]; rfl⟩
              · have hk0 : sizeOf k0 ≤ N := by simp at hs; omega
                obtain ⟨f1, r1, h1⟩ := (ih).1 k0 hk0
                  (fun n hn => hnames n (Or.inr (Or.inl
                    (by simp [refNamesMap, refNamesOpt]; exact Or.inl hn))))
                rcases r1 with e | v1
                · exact ⟨f1 + 1, _, by simp only [resolveMapF]; rw [h1]; rfl⟩
                · rcases vl with _ | v0
                  · exact ⟨f1 + 1, _, by simp only [resolveMapF]; rw [h1]; rfl⟩
                  · have hv0 : sizeOf v0 ≤ N := by simp at hs; omega
                    obtain ⟨f2, r2, h2⟩ := (ih).1 v0 hv0
                      (fun n hn => hnames n (Or.inr (Or.inl
                        (by simp [refNamesMap, refNamesOpt]; exact Or.inr hn))))
                    rcases r2 with e | v2 <;>
                      exact ⟨(f1 ⊔ f2) + 1, _, by
                        simp only [resolveMapF]
                        rw [resolveRefsF_mono (le_max_left f1 f2) h1]
                        simp only [rbind]
                        rw [resolveRefsF_mono (le_max_right f1 f2) h2]⟩
          have htup : ∃ fuel r, resolveTupleF fuel m tu = some r := by
            rcases tu with _ | ⟨k1, xs⟩
            · exact ⟨1, .ok none, rfl⟩
            · have hxs : sizeOf xs ≤ N := by simp at hs; omega
              obtain ⟨f1, r1, h1⟩ := (ih).2 xs hxs
                (fun n hn => hnames n (Or.inr (Or.inr (by simp [refNamesTuple]; exact hn))))
              rcases r1 with e | v
              · exact ⟨f1 + 1, _, by simp only [resolveTupleF]; rw [h1]; rfl⟩
              · exact ⟨f1 + 1, _, by simp only [resolveTupleF]; rw [h1]; rfl⟩
          obtain ⟨f1, r1, h1⟩ := hor
          obtain ⟨f2, r2, h2⟩ := hand
          obtain ⟨f3, r3, h3⟩ := hmap
          obtain ⟨f4, r4, h4⟩ := htup
          rcases r1 with e1 | o2
          · exact ⟨f1 + 1, _, by simp only [resolveRefsF]; rw [h1]; rfl⟩
          · rcases r2 with e2 | an2
            · exact ⟨(f1 ⊔ f2) + 1, _, by
                simp only [resolveRefsF]
                rw [resolveOrF_mono (le_max_left f1 f2) h1]
                simp only [rbind]
                rw [resolveAndF_mono (le_max_right f1 f2) h2]⟩
            · rcases r3 with e3 | mp2
              · exact ⟨(f1 ⊔ f2 ⊔ f3) + 1, _, by
                  simp only [resolveRefsF]
                  rw [resolveOrF_mono (by omega) h1]
                  simp only [rbind]
                  rw [resolveAndF_mono (by omega) h2]
                  simp only [rbind]
                  rw [resolveMapF_mono (by omega) h3]⟩
              · rcases r4 with e4 | t2 <;>
                  exact ⟨(f1 ⊔ f2 ⊔ f3 ⊔ f4) + 1, _, by
                    simp only [resolveRefsF]
                    rw [resolveOrF_mono (by omega) h1]
                    simp only [rbind]
                    rw [resolveAndF_mono (by omega) h2]
                    simp only [rbind]
                    rw [resolveMapF_mono (by omega) h3]
                    simp only [rbind]
                    rw [resolveTupleF_mono (by omega) h4]⟩
        · rcases el with _ | e
          · exact ⟨1, .error nilDeref, by simp only [resolveRefsF, ArraySchema.element]⟩
          · have he : sizeOf e ≤ N := by simp at hs; omega
            obtain ⟨f1, r1, h1⟩ := (ih).1 e he
              (fun n hn => hnames n (by
                simp only [refNamesS, refNamesOpt]
                exact hn))
            rcases r1 with er | v
            · exact ⟨f1 + 1, _, by
                simp only [resolveRefsF, ArraySchema.element, ArraySchema.kind]
                rw [h1]; rfl⟩
            · exact ⟨f1 + 1, _, by
                simp only [resolveRefsF, ArraySchema.element, ArraySchema.kind]
                rw [h1]; rfl⟩
      · obtain ⟨f1, r1, h1⟩ := hnames rn (by
          simp only [refNamesS, ReferenceSchema.name]
          exact List.mem_singleton.mpr rfl)
        rcases r1 with er | v
        · exact ⟨f1 + 1, _, by
            simp only [resolveRefsF, ReferenceSchema.name, ReferenceSchema.kind]
            rw [h1]; rfl⟩
        · exact ⟨f1 + 1, _, by
            simp only [resolveRefsF, ReferenceSchema.name, ReferenceSchema.kind]
            rw [h1]; rfl⟩
    · intro xs hxs hnames
      rcases xs with _ | ⟨x, rest⟩
      · exact ⟨1, .ok [], rfl⟩
      · simp only [refNamesList, List.mem_append] at hnames
        have hx : sizeOf x ≤ N := by simp at hxs; omega
        have hr : sizeOf rest ≤ N := by simp at hxs; omega
        obtain ⟨f1, r1, h1⟩ := (ih).1 x hx (fun n hn => hnames n (Or.inl hn))
        obtain ⟨f2, r2, h2⟩ := (ih).2 rest hr (fun n hn => hnames n (Or.inr hn))
        rcases r1 with e | v
        · exact ⟨f1 + 1, _, by simp only [resolveItemsF]; rw [h1]; rfl⟩
        · rcases r2 with e | vs <;>
            exact ⟨(f1 ⊔ f2) + 1, _, by
              simp only [resolveItemsF]
              rw [resolveRefsF_mono (le_max_left f1 f2) h1]
              simp only [rbind]
              rw [resolveItemsF_mono (le_max_right f1 f2) h2]⟩

theorem resolvePropsF_completes (m : Model) (ps : List Property)
    (hnames : ∀ n ∈ propRefNames ps, ∃ fuel r, anyRefF fuel m n = some r) :
    ∃ fuel r, resolvePropsF fuel m ps = some r := by
  induction ps with
  | nil => exact ⟨1, .ok [], rfl⟩
  | cons p rest ih =>
    rcases p with ⟨be, nm, ty, opt⟩
    rcases ty with _ | t0
    · exact ⟨1, .error nilDeref, rfl⟩
    · simp only [propRefNames, Property.type, List.mem_append] at hnames
      obtain ⟨f1, r1, h1⟩ := (resolveRefsF_completes m (sizeOf t0)).1 t0 (Nat.le_refl _)
        (fun n hn => hnames n (Or.inl hn))
      obtain ⟨f2, r2, h2⟩ := ih (fun n hn => hnames n (Or.inr hn))
      rcases r1 with e | v
      · exact ⟨f1 + 1, _, by simp only [resolvePropsF]; rw [h1]; rfl⟩
      · rcases r2 with e | vs <;>
          exact ⟨(f1 ⊔ f2) + 1, _, by
            simp only [resolvePropsF]
            rw [resolveRefsF_mono (le_max_left f1 f2) h1]
            simp only [rbind]
            rw [resolvePropsF_mono (le_max_right f1 f2) h2]⟩

theorem resolveStructureF_completes (m : Model) (root : String) (rank : String → Nat)
    (hrank : ∀ a b sa, ReachName m root a → findStructure m a = some sa →
      b ∈ structRefNames sa → (findStructure m b).isSome → rank b < rank a) :
    ∀ k a, ReachName m root a → rank a < k →
      ∃ fuel r, resolveStructureF fuel m a = some r := by
  intro k
  induction k with
  | zero => intro a _ h; omega
  | succ k ih =>
    intro a hreach hlt
    match hfs : findStructure m a with
    | none => exact ⟨1, _, by simp only [resolveStructureF, hfs]; rfl⟩
    | some sa =>
      have hnames : ∀ n ∈ structRefNames sa, ∃ fuel r, anyRefF fuel m n = some r := by
        intro n hn
        match hfn : findStructure m n with
        | none =>
          obtain ⟨r, hr⟩ := anyRefF_completes_nostruct hfn
          exact ⟨1, r, hr⟩
        | some sn =>
          have hlt2 : rank n < rank a := hrank a n sa hreach hfs hn (by rw [hfn]; rfl)
          have hreach2 : ReachName m root n := .step a n sa hreach hfs hn
          obtain ⟨fuel, r0, h0⟩ := ih n hreach2 (by omega)
          obtain ⟨r, hr⟩ := anyRefF_completes_struct (by rw [hfn]; rfl) h0
          exact ⟨fuel + 1, r, hr⟩
      rcases sa with ⟨be, nm, props, docs, exts, mixs⟩
      obtain ⟨f1, r1, h1⟩ := resolvePropsF_completes m props (by
        intro n hn
        exact hnames n (by simpa [structRefNames, Structure.properties] using hn))
      rcases r1 with e | vs <;>
        exact ⟨f1 + 1, _, by simp only [resolveStructureF, hfs]; rw [h1]; rfl⟩

/-- C2 as amended: for a requested structure name from which no cyclic
chain of structure references is reachable, resolution runs to
completion or fails with an error at some finite fuel (and emission,
a structurally recursive total function in this embedding, then also
terminates); the self-referencing catalog shows the cyclic case
diverges instead. -/
theorem C2_amended_terminates (m : Model) (name : String) (hacyc : AcyclicFrom m name) :
    ∃ fuel r, resolveStructureF fuel m name = some r := by
  obtain ⟨rank, hrank⟩ := hacyc
  exact resolveStructureF_completes m name rank hrank (rank name + 1) name .refl (by omega)

/-- Witness for C2 on the one-structure catalog `mB`. -/
theorem C2_witness : ∃ fuel r, resolveStructureF fuel mB "B" = some r :=
  C2_amended_terminates mB "B" ⟨fun _ => 0, by
    intro a b sa hreach hfind hmem hsome
    obtain ⟨hmem2, hname⟩ := findStructure_mem hfind
    simp only [mB, List.mem_singleton] at hmem2
    subst hmem2
    rw [show structRefNames structB = [] from rfl] at hmem
    exact absurd hmem (List.not_mem_nil b)⟩

theorem emitOK_print : ∀ N : Nat,
    (∀ st : Structure, sizeOf st ≤ N → EmitOK st → ∃ out, printStructR st = .ok out) ∧
    (∀ ps : List Property, sizeOf ps ≤ N → EmitOKProps ps →
      ∃ pre types, printPropsR ps = .ok (pre, types)) ∧
    (∀ p : Property, sizeOf p ≤ N → EmitOKProp p →
      ∃ extra tn, emitPropR p = .ok (extra, tn)) := by
  intro N
  induction N with
  | zero =>
    refine ⟨?_, ?_, ?_⟩ <;> intro x hx
    · rcases x with ⟨be, nm, props, docs, exts, mixs⟩
      simp at hx
    · rcases x with _ | ⟨p, rest⟩ <;> simp at hx
    · rcases x with ⟨be, nm, ty, o⟩
      simp at hx
  | succ N ih =>
    obtain ⟨ihS, ihP, ihE⟩ := ih
    refine ⟨?_, ?_, ?_⟩
    · intro st hsize hok
      rcases hok with ⟨be, nm, props, docs, exts, mixs, hprops⟩
      have hsz : sizeOf props ≤ N := by simp at hsize; omega
      obtain ⟨pre, types, hpp⟩ := ihP props hsz hprops
      exact ⟨_, by simp only [printStructR]; rw [hpp]⟩
    · intro ps hsize hok
      cases hok with
      | nil => exact ⟨"", [], rfl⟩
      | cons p rest hp hrest =>
        have h1 : sizeOf p ≤ N := by simp at hsize; omega
        have h2 : sizeOf rest ≤ N := by simp at hsize; omega
        obtain ⟨extra, tn, he⟩ := ihE p h1 hp
        obtain ⟨pre, types, hr⟩ := ihP rest h2 hrest
        exact ⟨extra ++ pre, _, by simp only [printPropsR]; rw [he, hr]⟩
    · intro p hsize hok
      cases hok with
      | nonRef be nm t opt hk hbase =>
        rcases t with ⟨tbe, k, b, r, a, oo, an, mp, sl, l, tu⟩
        simp only [Schema.kind] at hk hbase
        by_cases hb : k = "base"
        · have hbs := hbase hb
          subst hb
          simp only [Schema.base] at hbs
          rcases b with _ | b0
          · simp at hbs
          · by_cases hn : b0.name = "string"
            · refine ⟨"", "string", ?_⟩
              rcases r with _ | ⟨rk, rn, rf⟩
              · simp [emitPropR, hn]
              · rcases rf with _ | ⟨an0, ast, aen, aal⟩
                · simp [emitPropR, hn]
                · rcases ast with _ | stB <;> simp [emitPropR, hn]
            · refine ⟨"", "", ?_⟩
              rcases r with _ | ⟨rk, rn, rf⟩
              · simp [emitPropR, hn]
              · rcases rf with _ | ⟨an0, ast, aen, aal⟩
                · simp [emitPropR, hn]
                · rcases ast with _ | stB <;> simp [emitPropR, hn]
        · refine ⟨"", "", ?_⟩
          rcases r with _ | ⟨rk, rn, rf⟩
          · rcases b with _ | b0 <;> simp [emitPropR, hk, hb]
          · rcases rf with _ | ⟨an0, ast, aen, aal⟩
            · rcases b with _ | b0 <;> simp [emitPropR, hk, hb]
            · rcases ast with _ | stB <;> rcases b with _ | b0 <;>
                simp [emitPropR, hk, hb]
      | refStruct be nm t opt r a stB hk href hfnd hstruct hstB =>
        rcases t with ⟨tbe, k, b, rr, aa, oo, an, mp, sl, l, tu⟩
        simp only [Schema.kind] at hk
        subst hk
        simp only [Schema.reference] at href
        subst href
        rcases r with ⟨rk, rn, rf⟩
        simp only [ReferenceSchema.found] at hfnd
        subst hfnd
        rcases a with ⟨an0, ast, aen, aal⟩
        simp only [AnyRef.struct] at hstruct
        subst hstruct
        have hsz : sizeOf stB ≤ N := by simp at hsize; omega
        obtain ⟨out, hout⟩ := ihS stB hsz hstB
        refine ⟨out, "*" ++ stB.name, ?_⟩
        rcases b with _ | b0 <;> simp [emitPropR, hout]
      | refOther be nm t opt r a hk href hfnd hstruct hea =>
        rcases t with ⟨tbe, k, b, rr, aa, oo, an, mp, sl, l, tu⟩
        simp only [Schema.kind] at hk
        subst hk
        simp only [Schema.reference] at href
        subst href
        rcases r with ⟨rk, rn, rf⟩
        simp only [ReferenceSchema.found] at hfnd
        subst hfnd
        rcases a with ⟨an0, ast, aen, aal⟩
        simp only [AnyRef.struct] at hstruct
        subst hstruct
        simp only [AnyRef.enum, AnyRef.aliasT] at hea
        rcases aen with _ | e0
        · rcases aal with _ | a0
          · simp at hea
          · refine ⟨"", a0.name, ?_⟩
            rcases b with _ | b0 <;> simp [emitPropR]
        · refine ⟨"", e0.name, ?_⟩
          rcases b with _ | b0 <;> simp [emitPropR]

theorem resolveEmitOK {m : Model} (mwf : wfModel m = true) : ∀ fuel : Nat,
    (∀ s t, wfPropTop s = true → resolveRefsF fuel m s = some (.ok t) →
      ∀ be nm opt, EmitOKProp (.mk be nm (some t) opt)) ∧
    (∀ n aRes, anyRefF fuel m n = some (.ok aRes) →
      (∀ stB, aRes.struct = some stB → EmitOK stB) ∧
      (aRes.struct = none → (aRes.enum.isSome || aRes.aliasT.isSome) = true)) ∧
    (∀ ps ps2, wfProps ps = true → resolvePropsF fuel m ps = some (.ok ps2) →
      EmitOKProps ps2) ∧
    (∀ n st, resolveStructureF fuel m n = some (.ok st) → EmitOK st) := by
  intro fuel
  induction fuel with
  | zero =>
    refine ⟨?_, ?_, ?_, ?_⟩
    · intro s t _ h
      exact absurd h (by simp [resolveRefsF])
    · intro n aRes h
      exact absurd h (by simp [anyRefF])
    · intro ps ps2 _ h
      exact absurd h (by simp [resolvePropsF])
    · intro n st h
      exact absurd h (by simp [resolveStructureF])
  | succ fuel ih =>
    obtain ⟨ihR, ihAny, ihP, ihS⟩ := ih
    refine ⟨?_, ?_, ?_, ?_⟩
    · intro s t hwf h be nm opt
      rcases s with ⟨sbe, k, b, rr, a, o, an, mp, sl, l, tu⟩
      simp only [wfPropTop, Schema.kind, Schema.reference, Schema.base,
        Bool.and_eq_true, Bool.or_eq_true, bne_iff_ne, ne_eq] at hwf
      rcases rr with _ | ⟨rk, rn, rf⟩
      · rcases a with _ | ⟨ak, el⟩
        · simp only [resolveRefsF] at h
          obtain ⟨o2, ho, h⟩ := rbind_eq_ok h
          obtain ⟨an2, ha, h⟩ := rbind_eq_ok h
          obtain ⟨mp2, hm, h⟩ := rbind_eq_ok h
          obtain ⟨t2, ht, h⟩ := rbind_eq_ok h
          simp only [Option.some.injEq, Except.ok.injEq] at h
          subst h
          refine EmitOKProp.nonRef be nm _ opt ?_ ?_
          · simp only [Schema.kind]
            rcases hwf.1 with hne | hcontra
            · exact hne
            · simp at hcontra
          · intro hbase
            simp only [Schema.kind] at hbase
            simp only [Schema.base]
            rcases hwf.2 with hne | hsome
            · exact absurd hbase hne
            · exact hsome
        · rcases el with _ | e
          · simp [resolveRefsF, ArraySchema.element, rbind] at h
          · simp only [resolveRefsF, ArraySchema.element, ArraySchema.kind] at h
            obtain ⟨el2, he, h⟩ := rbind_eq_ok h
            simp only [Option.some.injEq, Except.ok.injEq] at h
            subst h
            refine EmitOKProp.nonRef be nm _ opt ?_ ?_
            · simp only [Schema.kind]
              rcases hwf.1 with hne | hcontra
              · exact hne
              · simp at hcontra
            · intro hbase
              simp only [Schema.kind] at hbase
              simp only [Schema.base]
              rcases hwf.2 with hne | hsome
              · exact absurd hbase hne
              · exact hsome
      · simp only [resolveRefsF, ReferenceSchema.name, ReferenceSchema.kind] at h
        obtain ⟨fnd, hf, h⟩ := rbind_eq_ok h
        simp only [Option.some.injEq, Except.ok.injEq] at h
        subst h
        obtain ⟨hstr, hnone⟩ := ihAny rn fnd hf
        by_cases hk : k = "reference"
        · subst hk
          rcases hfnd : fnd.struct with _ | stB
          · exact EmitOKProp.refOther be nm _ opt (.mk rk rn (some fnd)) fnd rfl
              (by simp [Schema.reference]) (by simp [ReferenceSchema.found]) hfnd
              (hnone hfnd)
          · exact EmitOKProp.refStruct be nm _ opt (.mk rk rn (some fnd)) fnd stB rfl
              (by simp [Schema.reference]) (by simp [ReferenceSchema.found]) hfnd
              (hstr stB hfnd)
        · refine EmitOKProp.nonRef be nm _ opt ?_ ?_
          · simpa only [Schema.kind] using hk
          · intro hbase
            simp only [Schema.kind] at hbase
            simp only [Schema.base]
            rcases hwf.2 with hne | hsome
            · exact absurd hbase hne
            · exact hsome
    · intro n aRes h
      simp only [anyRefF] at h
      revert h
      cases hfs : findStructure m n <;> intro h
      · revert h
        cases hfe : findEnumeration m n <;> intro h
        · revert h
          cases hfa : findTypeAlias m n <;> intro h
          · exact absurd h (by simp)
          · simp only [Option.some.injEq, Except.ok.injEq] at h
            subst h
            constructor
            · intro stB hst
              simp [AnyRef.struct] at hst
            · intro _
              simp [AnyRef.enum, AnyRef.aliasT]
        · simp only [Option.some.injEq, Except.ok.injEq] at h
          subst h
          constructor
          · intro stB hst
            simp [AnyRef.struct] at hst
          · intro _
            simp [AnyRef.enum, AnyRef.aliasT]
      · obtain ⟨st0, hst0, h⟩ := rbind_eq_ok h
        simp only [Option.some.injEq, Except.ok.injEq] at h
        subst h
        constructor
        · intro stB hst
          simp only [AnyRef.struct, Option.some.injEq] at hst
          subst hst
          exact ihS n _ hst0
        · intro hnone
          simp [AnyRef.struct] at hnone
    · intro ps ps2 hwf h
      rcases ps with _ | ⟨⟨be, nm, ty, opt⟩, rest⟩
      · simp only [resolvePropsF, Option.some.injEq, Except.ok.injEq] at h
        subst h
        exact EmitOKProps.nil
      · simp only [resolvePropsF] at h
        obtain ⟨t2, ht, h⟩ := rbind_eq_ok h
        obtain ⟨rest2, hr, h⟩ := rbind_eq_ok h
        simp only [Option.some.injEq, Except.ok.injEq] at h
        subst h
        rcases ty with _ | t0
        · exact absurd ht (by simp [rbind])
        · simp only [wfProps, wfProp, Property.type, Bool.and_eq_true] at hwf
          exact EmitOKProps.cons _ _ (ihR t0 t2 hwf.1.2 ht be nm opt) (ihP rest rest2 hwf.2 hr)
    · intro n st h
      revert h
      cases hfs : findStructure m n <;> intro h
      · exact absurd h (by simp [resolveStructureF, hfs])
      · rename_i sa
        have hsa := findStructure_mem hfs
        have hwfp : wfProps sa.properties = true := by
          simp only [wfModel, List.all_eq_true] at mwf
          exact mwf sa hsa.1
        rcases sa with ⟨be, nm, props, docs, exts, mixs⟩
        simp only [resolveStructureF, hfs] at h
        obtain ⟨props2, hp, h⟩ := rbind_eq_ok h
        simp only [Option.some.injEq, Except.ok.injEq] at h
        subst h
        simp only [Structure.properties] at hwfp
        exact EmitOK.intro _ _ _ _ _ _ (ihP props props2 hwfp hp)

/-- C7: a document fragment at a Schema Node position whose `kind`
discriminator is not one of the nine recognized values fails to decode
with the `unknown schema kind` error, before any variant shape (and
hence anything resolution could consume) is produced. -/
theorem C7_unknown_kind_decode_fails (fuel : Nat) (fs : List (String × Json)) (k : String)
    (hk : exploreKind fs = .ok k) (hnot : k ∉ schemaKinds) :
    decodeSchema (fuel + 1) (.obj fs) = some (.error ("unknown schema kind: " ++ k)) := by
  simp only [schemaKinds, List.mem_cons, List.not_mem_nil, or_false, not_or] at hnot
  obtain ⟨h2, h3, h4, h1, h5, h6, h7, h8, h9⟩ := hnot
  simp only [decodeSchema, hk]
  simp [h1, h2, h3, h4, h5, h6, h7, h8, h9]

/-- Witness for C7 at a concrete fragment with kind `bogus`. -/
theorem C7_witness :
    decodeSchema 1 (.obj [("kind", .str "bogus")]) = some (.error "unknown schema kind: bogus") :=
  C7_unknown_kind_decode_fails 0 _ "bogus" rfl (by decide)

/-- C3 counterexample: decoding a `base` fragment that carries the shared
metadata field `since` does not succeed; the strict variant decoder
rejects the metadata field as unknown. -/
theorem C3_counterexample :
    decodeSchema 9 (.obj [("kind", .str "base"), ("name", .str "string"), ("since", .str "3.0")]) =
      some (.error "unmarshal schema type base: json: unknown field \"since\"") := by rfl

/-- C3 as amended: although every Schema Node's in-memory shape embeds the
shared metadata fields, the decoder rejects a fragment of any of the
nine kinds that carries any of the five metadata fields, and a fragment
without them decodes with the embedded metadata left at its zero value
(never populated). -/
theorem C3_amended_meta_rejected :
    decodeRejectsMeta = true ∧ decodeNeverPopulatesMeta = true := ⟨rfl, rfl⟩

/-- C1 counterexample: emitting a structure with a `base integer` property
does not fail with any error; it succeeds and produces a declaration
whose field has an empty type name. -/
theorem C1_counterexample :
    printStructR structInt =
      .ok "type S1 struct \x7b\n\tLine  `json:\"line,omitempty\"\n\x7d\n" := by rfl

/-- C1 as amended: for a property whose type is a `base` kind with a
primitive name other than `string`, or whose kind is array, map, or,
and, tuple, literal, or stringLiteral, emission does not fail — no
unsupported-type error exists in the code; the property loop completes,
emitting nothing extra and leaving the field's type name empty. -/
theorem C1_amended_unsupported_kinds_silent (p : Property) (t : Schema)
    (hty : p.type = some t)
    (hcase : (t.kind = "base" ∧ ∃ b, t.base = some b ∧ b.name ≠ "string") ∨
      t.kind ∈ ["array", "map", "or", "and", "tuple", "literal", "stringLiteral"]) :
    emitPropR p = .ok ("", "") := by
  rcases p with ⟨be, nm, ty, opt⟩
  simp only [Property.type] at hty
  subst hty
  rcases t with ⟨tbe, k, b, r, a, o, an, mp, sl, l, tu⟩
  simp only [Schema.kind, Schema.base] at hcase
  rcases hcase with ⟨hk, b0, hb, hbn⟩ | hmem
  · subst hk
    subst hb
    simp [emitPropR, hbn]
  · simp only [List.mem_cons, List.not_mem_nil, or_false] at hmem
    rcases hmem with rfl | rfl | rfl | rfl | rfl | rfl | rfl <;> rfl

/-- Witness for C1 at a concrete `base integer` property. -/
theorem C1_witness :
    emitPropR (.mk BaseElement.zero "line" (some schInt) false) = .ok ("", "") :=
  C1_amended_unsupported_kinds_silent _ schInt rfl
    (Or.inl ⟨rfl, .mk "base" "integer", rfl, by decide⟩)

/-- C6 counterexample: in `mDangling` a definition bears the name `A`, yet
resolving a reference to `A` fails (with the error of the dangling
nested reference `Zzz`), so bearing a name does not imply resolution
succeeds. -/
theorem C6_counterexample :
    definedName mDangling "A" = true ∧
      anyRefF 10 mDangling "A" = some (.error "ref not found: Zzz") := ⟨rfl, rfl⟩

/-- C6 as amended: a reference naming a definition absent from all three
namespaces fails with exactly `ref not found: <name>`; a name borne by
an enumeration (and no structure) or by a type alias (and no structure
or enumeration) resolves successfully to that definition; a name borne
by a structure resolves exactly as resolving that structure does. -/
theorem C6_amended_lookup (m : Model) (n : String) (fuel : Nat) :
    (findStructure m n = none → findEnumeration m n = none → findTypeAlias m n = none →
      anyRefF (fuel + 1) m n = some (.error ("ref not found: " ++ n))) ∧
    (findStructure m n = none → ∀ e, findEnumeration m n = some e →
      anyRefF (fuel + 1) m n = some (.ok (.mk n none (some e) none))) ∧
    (findStructure m n = none → findEnumeration m n = none → ∀ a, findTypeAlias m n = some a →
      anyRefF (fuel + 1) m n = some (.ok (.mk n none none (some a)))) ∧
    ((findStructure m n).isSome →
      anyRefF (fuel + 1) m n =
        rbind (resolveStructureF fuel m n) fun st => some (.ok (.mk n (some st) none none))) := by
  refine ⟨?_, ?_, ?_, ?_⟩
  · intro h1 h2 h3
    simp only [anyRefF, h1, h2, h3]
  · intro h1 e h2
    simp only [anyRefF, h1, h2]
  · intro h1 h2 a h3
    simp only [anyRefF, h1, h2, h3]
  · intro h1
    match hfs : findStructure m n with
    | some st => simp only [anyRefF, hfs]
    | none => rw [hfs] at h1; exact absurd h1 (by simp)

/-- Witness for C6 on an empty catalog and the absent name `Missing`. -/
theorem C6_witness :
    anyRefF 1 (⟨⟨"v"⟩, [], [], [], [], []⟩ : Model) "Missing" =
      some (.error "ref not found: Missing") :=
  (C6_amended_lookup _ "Missing" 0).1 rfl rfl rfl

/-- C8: name lookup scans structures, then enumerations, then type aliases,
returning the first match: a successful lookup of a structure-borne
name always carries the structure slot (even when an enumeration or
alias shares the name), an enumeration-borne name not shadowed by a
structure returns the first matching enumeration (even when an alias
shares the name), and a type alias is returned only when neither other
namespace matches. -/
theorem C8_lookup_precedence (m : Model) (n : String) :
    (∀ fuel r, (findStructure m n).isSome → anyRefF fuel m n = some (.ok r) →
      ∃ st, r = .mk n (some st) none none) ∧
    (∀ fuel e, findStructure m n = none → findEnumeration m n = some e →
      anyRefF (fuel + 1) m n = some (.ok (.mk n none (some e) none))) ∧
    (∀ fuel a, findStructure m n = none → findEnumeration m n = none → findTypeAlias m n = some a →
      anyRefF (fuel + 1) m n = some (.ok (.mk n none none (some a)))) := by
  refine ⟨?_, ?_, ?_⟩
  · intro fuel r hsome h
    match fuel with
    | 0 => exact absurd h (by simp [anyRefF])
    | fuel + 1 =>
      match hfs : findStructure m n with
      | none => rw [hfs] at hsome; exact absurd hsome (by simp)
      | some st0 =>
        simp only [anyRefF, hfs] at h
        rcases rbind_eq_some h with ⟨e, _, hre⟩ | ⟨a, _, hfa⟩
        · exact absurd hre (by simp)
        · simp only [Option.some.injEq, Except.ok.injEq] at hfa
          exact ⟨a, hfa.symm⟩
  · intro fuel e h1 h2
    simp only [anyRefF, h1, h2]
  · intro fuel a h1 h2 h3
    simp only [anyRefF, h1, h2, h3]

/-- Witness for C8 on the colliding catalog `mDup`: the name `Dup`, borne
by all three namespaces, resolves to the structure; the name `EDup`,
borne by an enumeration and an alias, resolves to the enumeration. -/
theorem C8_witness :
    (∃ st, (AnyRef.mk "Dup" (some structDup) none none) = .mk "Dup" (some st) none none) ∧
    anyRefF 2 mDup "EDup" = some (.ok (.mk "EDup" none (some enumEDup) none)) :=
  ⟨(C8_lookup_precedence mDup "Dup").1 4 _ rfl rfl,
   (C8_lookup_precedence mDup "EDup").2.1 1 enumEDup rfl rfl⟩

/-- On the self-referencing catalog `mCyc`, the resolution call graph
consumes fuel forever: no amount of fuel completes any member of the
cycle. -/
theorem cycNone (fuel : Nat) :
    resolveStructureF fuel mCyc "A" = none ∧ resolvePropsF fuel mCyc cycProps = none ∧
    resolveRefsF fuel mCyc schRefA = none ∧ anyRefF fuel mCyc "A" = none := by
  induction fuel with
  | zero => exact ⟨rfl, rfl, rfl, rfl⟩
  | succ n ih =>
    obtain ⟨ihS, ihP, ihR, ihA⟩ := ih
    refine ⟨?_, ?_, ?_, ?_⟩
    · show rbind (resolvePropsF n mCyc cycProps) _ = none
      rw [ihP]; rfl
    · show rbind (resolveRefsF n mCyc schRefA) _ = none
      rw [ihR]; rfl
    · show rbind (anyRefF n mCyc "A") _ = none
      rw [ihA]; rfl
    · show rbind (resolveStructureF n mCyc "A") _ = none
      rw [ihS]; rfl

/-- C2 counterexample: on the concrete catalog whose structure `A`
references itself, `resolveStructure` neither completes nor fails:
no fuel bound makes the recursion return. -/
theorem C2_counterexample : ¬ ∃ fuel r, resolveStructureF fuel mCyc "A" = some r := by
  rintro ⟨fuel, r, h⟩
  rw [(cycNone fuel).1] at h
  exact Option.noConfusion h

/-- C4 counterexample: on the same self-referencing catalog, every
transitively referenced name resolves in the catalog (the only such
name is `A` itself), yet `resolveStructure` never succeeds, so
resolution followed by emission does not run to completion. -/
theorem anyRefF_succeeds_nostruct {m : Model} {n : String}
    (h : findStructure m n = none) (hd : definedName m n = true) :
    ∃ a, anyRefF 1 m n = some (.ok a) := by
  simp only [definedName, h, Option.isSome_none, Bool.false_or, Bool.or_eq_true] at hd
  simp only [anyRefF, h]
  rcases hd with he | hal
  · match hfe : findEnumeration m n with
    | none => rw [hfe] at he; exact absurd he (by simp)
    | some e => exact ⟨_, rfl⟩
  · match hfe : findEnumeration m n with
    | some e => exact ⟨_, rfl⟩
    | none =>
      match hfa : findTypeAlias m n with
      | none => rw [hfa] at hal; exact absurd hal (by simp)
      | some al => exact ⟨_, rfl⟩

theorem anyRefF_succeeds_struct {m : Model} {n : String} {fuel : Nat} {st : Structure}
    (hs : (findStructure m n).isSome = true)
    (h : resolveStructureF fuel m n = some (.ok st)) :
    ∃ a, anyRefF (fuel + 1) m n = some (.ok a) := by
  match hfs : findStructure m n with
  | none => rw [hfs] at hs; exact absurd hs (by simp)
  | some s0 => exact ⟨_, by simp only [anyRefF, hfs]; rw [h]; rfl⟩

theorem resolveRefsF_succeeds (m : Model) : ∀ N : Nat,
    (∀ s : Schema, sizeOf s ≤ N → wfDeep s = true →
      (∀ n ∈ refNamesS s, ∃ fuel a, anyRefF fuel m n = some (.ok a)) →
      ∃ fuel t, resolveRefsF fuel m s = some (.ok t)) ∧
    (∀ xs : List Schema, sizeOf xs ≤ N → wfDeepList xs = true →
      (∀ n ∈ refNamesList xs, ∃ fuel a, anyRefF fuel m n = some (.ok a)) →
      ∃ fuel ts, resolveItemsF fuel m xs = some (.ok ts)) := by
  intro N
  induction N with
  | zero =>
    constructor <;> intro x hx
    · rcases x with ⟨be, k, b, rr, a, o, an, mp, sl, l, tu⟩
      simp at hx
    · rcases x with _ | ⟨y, ys⟩ <;> simp at hx
  | succ N ih =>
    constructor
    · intro s hs hwf hnames
      rcases s with ⟨be, k, b, rr, a, o, an, mp, sl, l, tu⟩
      rcases rr with _ | ⟨rk, rn, rf⟩
      · rcases a with _ | ⟨ak, el⟩
        · simp only [wfDeep, Bool.and_eq_true] at hwf
          obtain ⟨⟨hwfor, hwfand⟩, hwfmap, hwftup⟩ := hwf
          simp only [refNamesS, List.mem_append] at hnames
          have hor : ∃ fuel o2, resolveOrF fuel m o = some (.ok o2) := by
            rcases o with _ | ⟨k1, xs⟩
            · exact ⟨1, none, rfl⟩
            · simp only [wfDeepOr] at hwfor
              have hxs : sizeOf xs ≤ N := by simp at hs; omega
              obtain ⟨f1, xs2, h1⟩ := (ih).2 xs hxs hwfor
                (fun n hn => hnames n (Or.inl (Or.inl (by simp [refNamesOr]; exact hn))))
              exact ⟨f1 + 1, _, by simp only [resolveOrF]; rw [h1]; rfl⟩
          have hand : ∃ fuel an2, resolveAndF fuel m an = some (.ok an2) := by
            rcases an with _ | ⟨k1, xs⟩
            · exact ⟨1, none, rfl⟩
            · simp only [wfDeepAnd] at hwfand
              have hxs : sizeOf xs ≤ N := by simp at hs; omega
              obtain ⟨f1, xs2, h1⟩ := (ih).2 xs hxs hwfand
                (fun n hn => hnames n (Or.inl (Or.inr (by simp [refNamesAnd]; exact hn))))
              exact ⟨f1 + 1, _, by simp only [resolveAndF]; rw [h1]; rfl⟩
          have hmap : ∃ fuel mp2, resolveMapF fuel m mp = some (.ok mp2) := by
            rcases mp with _ | ⟨k1, ky, vl⟩
            · exact ⟨1, none, rfl⟩
            · simp only [wfDeepMap, Bool.and_eq_true] at hwfmap
              rcases ky with _ | k0
              · simp [wfDeepReq] at hwfmap
              · rcases vl with _ | v0
                · simp [wfDeepReq] at hwfmap
                · simp only [wfDeepReq] at hwfmap
                  have hk0 : sizeOf k0 ≤ N := by simp at hs; omega
                  have hv0 : sizeOf v0 ≤ N := by simp at hs; omega
                  obtain ⟨f1, k2, h1⟩ := (ih).1 k0 hk0 hwfmap.1
                    (fun n hn => hnames n (Or.inr (Or.inl
                      (by simp [refNamesMap, refNamesOpt]; exact Or.inl hn))))
                  obtain ⟨f2, v2, h2⟩ := (ih).1 v0 hv0 hwfmap.2
                    (fun n hn => hnames n (Or.inr (Or.inl
                      (by simp [refNamesMap, refNamesOpt]; exact Or.inr hn))))
                  exact ⟨(f1 ⊔ f2) + 1, _, by
                    simp only [resolveMapF]
                    rw [resolveRefsF_mono (le_max_left f1 f2) h1]
                    simp only [rbind]
                    rw [resolveRefsF_mono (le_max_right f1 f2) h2]⟩
          have htup : ∃ fuel t2, resolveTupleF fuel m tu = some (.ok t2) := by
            rcases tu with _ | ⟨k1, xs⟩
            · exact ⟨1, none, rfl⟩
            · simp only [wfDeepTuple] at hwftup
              have hxs : sizeOf xs ≤ N := by simp at hs; omega
              obtain ⟨f1, xs2, h1⟩ := (ih).2 xs hxs hwftup
                (fun n hn => hnames n (Or.inr (Or.inr (by simp [refNamesTuple]; exact hn))))
              exact ⟨f1 + 1, _, by simp only [resolveTupleF]; rw [h1]; rfl⟩
          obtain ⟨f1, o2, h1⟩ := hor
          obtain ⟨f2, an2, h2⟩ := hand
          obtain ⟨f3, mp2, h3⟩ := hmap
          obtain ⟨f4, t2, h4⟩ := htup
          exact ⟨(f1 ⊔ f2 ⊔ f3 ⊔ f4) + 1, _, by
            simp only [resolveRefsF]
            rw [resolveOrF_mono (by omega) h1]
            simp only [rbind]
            rw [resolveAndF_mono (by omega) h2]
            simp only [rbind]
            rw [resolveMapF_mono (by omega) h3]
            simp only [rbind]
            rw [resolveTupleF_mono (by omega) h4]⟩
        · simp only [wfDeep] at hwf
          rcases el with _ | e
          · simp [wfDeepReq] at hwf
          · simp only [wfDeepReq] at hwf
            have he : sizeOf e ≤ N := by simp at hs; omega
            obtain ⟨f1, e2, h1⟩ := (ih).1 e he hwf
              (fun n hn => hnames n (by
                simp only [refNamesS, refNamesOpt]
                exact hn))
            exact ⟨f1 + 1, _, by
              simp only [resolveRefsF, ArraySchema.element, ArraySchema.kind]
              rw [h1]; rfl⟩
      · obtain ⟨f1, a1, h1⟩ := hnames rn (by
          simp only [refNamesS, ReferenceSchema.name]
          exact List.mem_singleton.mpr rfl)
        exact ⟨f1 + 1, _, by
          simp only [resolveRefsF, ReferenceSchema.name, ReferenceSchema.kind]
          rw [h1]; rfl⟩
    · intro xs hxs hwf hnames
      rcases xs with _ | ⟨x, rest⟩
      · exact ⟨1, [], rfl⟩
      · simp only [wfDeepList, Bool.and_eq_true] at hwf
        simp only [refNamesList, List.mem_append] at hnames
        have hx : sizeOf x ≤ N := by simp at hxs; omega
        have hr : sizeOf rest ≤ N := by simp at hxs; omega
        obtain ⟨f1, x2, h1⟩ := (ih).1 x hx hwf.1 (fun n hn => hnames n (Or.inl hn))
        obtain ⟨f2, rest2, h2⟩ := (ih).2 rest hr hwf.2 (fun n hn => hnames n (Or.inr hn))
        exact ⟨(f1 ⊔ f2) + 1, _, by
          simp only [resolveItemsF]
          rw [resolveRefsF_mono (le_max_left f1 f2) h1]
          simp only [rbind]
          rw [resolveItemsF_mono (le_max_right f1 f2) h2]⟩

theorem resolvePropsF_succeeds (m : Model) (ps : List Property)
    (hwf : wfProps ps = true)
    (hnames : ∀ n ∈ propRefNames ps, ∃ fuel a, anyRefF fuel m n = some (.ok a)) :
    ∃ fuel ps2, resolvePropsF fuel m ps = some (.ok ps2) := by
  induction ps with
  | nil => exact ⟨1, [], rfl⟩
  | cons p rest ih =>
    rcases p with ⟨be, nm, ty, opt⟩
    rcases ty with _ | t0
    · simp [wfProps, wfProp, Property.type] at hwf
    · simp only [wfProps, wfProp, Property.type, Bool.and_eq_true] at hwf
      obtain ⟨⟨hdeep, _⟩, hrest⟩ := hwf
      simp only [propRefNames, Property.type, List.mem_append] at hnames
      obtain ⟨f1, t2, h1⟩ := (resolveRefsF_succeeds m (sizeOf t0)).1 t0 (Nat.le_refl _) hdeep
        (fun n hn => hnames n (Or.inl hn))
      obtain ⟨f2, rest2, h2⟩ := ih hrest (fun n hn => hnames n (Or.inr hn))
      exact ⟨(f1 ⊔ f2) + 1, _, by
        simp only [resolvePropsF]
        rw [resolveRefsF_mono (le_max_left f1 f2) h1]
        simp only [rbind]
        rw [resolvePropsF_mono (le_max_right f1 f2) h2]⟩

theorem resolveStructureF_succeeds (m : Model) (root : String) (rank : String → Nat)
    (mwf : wfModel m = true)
    (hrank : ∀ a b sa, ReachName m root a → findStructure m a = some sa →
      b ∈ structRefNames sa → (findStructure m b).isSome → rank b < rank a)
    (hdef : ∀ n, ReachName m root n → definedName m n = true) :
    ∀ k a, ReachName m root a → (findStructure m a).isSome = true → rank a < k →
      ∃ fuel st, resolveStructureF fuel m a = some (.ok st) := by
  intro k
  induction k with
  | zero => intro a _ _ h; omega
  | succ k ih =>
    intro a hreach hsome hlt
    match hfs : findStructure m a with
    | none => rw [hfs] at hsome; exact absurd hsome (by simp)
    | some sa =>
      have hnames : ∀ n ∈ structRefNames sa, ∃ fuel x, anyRefF fuel m n = some (.ok x) := by
        intro n hn
        have hreach2 : ReachName m root n := .step a n sa hreach hfs hn
        match hfn : findStructure m n with
        | none =>
          obtain ⟨x, hx⟩ := anyRefF_succeeds_nostruct hfn (hdef n hreach2)
          exact ⟨1, x, hx⟩
        | some sn =>
          have hlt2 : rank n < rank a := hrank a n sa hreach hfs hn (by rw [hfn]; rfl)
          obtain ⟨fuel, st0, h0⟩ := ih n hreach2 (by rw [hfn]; rfl) (by omega)
          obtain ⟨x, hx⟩ := anyRefF_succeeds_struct (by rw [hfn]; rfl) h0
          exact ⟨fuel + 1, x, hx⟩
      have hwfp : wfProps sa.properties = true := by
        simp only [wfModel, List.all_eq_true] at mwf
        exact mwf sa (findStructure_mem hfs).1
      rcases sa with ⟨be, nm, props, docs, exts, mixs⟩
      simp only [Structure.properties] at hwfp
      obtain ⟨f1, props2, h1⟩ := resolvePropsF_succeeds m props hwfp
        (fun n hn => hnames n (by simpa [structRefNames, Structure.properties] using hn))
      exact ⟨f1 + 1, _, by simp only [resolveStructureF, hfs]; rw [h1]; rfl⟩

theorem resolvePropsF_names : ∀ (fuel : Nat) (m : Model) (ps ps2 : List Property),
    resolvePropsF fuel m ps = some (.ok ps2) →
    ps2.map Property.name = ps.map Property.name := by
  intro fuel
  induction fuel with
  | zero => intro m ps ps2 h; exact absurd h (by simp [resolvePropsF])
  | succ fuel ih =>
    intro m ps ps2 h
    rcases ps with _ | ⟨⟨be, nm, ty, opt⟩, rest⟩
    · simp only [resolvePropsF, Option.some.injEq, Except.ok.injEq] at h
      subst h
      rfl
    · simp only [resolvePropsF] at h
      obtain ⟨t2, ht, h⟩ := rbind_eq_ok h
      obtain ⟨rest2, hr, h⟩ := rbind_eq_ok h
      simp only [Option.some.injEq, Except.ok.injEq] at h
      subst h
      simp only [List.map_cons, Property.name]
      rw [ih m rest rest2 hr]

theorem resolveStructureF_shape {fuel : Nat} {m : Model} {a : String} {sa st : Structure}
    (hfs : findStructure m a = some sa)
    (h : resolveStructureF fuel m a = some (.ok st)) :
    st.name = sa.name ∧ st.properties.map Property.name = sa.properties.map Property.name := by
  cases fuel with
  | zero => exact absurd h (by simp [resolveStructureF])
  | succ fuel =>
    rcases sa with ⟨be, nm, props, docs, exts, mixs⟩
    simp only [resolveStructureF, hfs] at h
    obtain ⟨props2, hp, h⟩ := rbind_eq_ok h
    simp only [Option.some.injEq, Except.ok.injEq] at h
    subst h
    exact ⟨rfl, by
      simp only [Structure.properties]
      exact resolvePropsF_names _ _ _ _ hp⟩

theorem forall2_fieldLine_transport : ∀ (ps qs : List Property) (types : List String),
    ps.map Property.name = qs.map Property.name →
    List.Forall₂ (fun (p : Property) (line : String) =>
      ∃ tn, line = fieldLine (toGoPascal p.name) tn p.name) ps types →
    List.Forall₂ (fun (p : Property) (line : String) =>
      ∃ tn, line = fieldLine (toGoPascal p.name) tn p.name) qs types := by
  intro ps
  induction ps with
  | nil =>
    intro qs types hmap hf
    cases hf
    rcases qs with _ | ⟨q, qs⟩
    · exact List.Forall₂.nil
    · simp at hmap
  | cons p ps ih =>
    intro qs types hmap hf
    rcases qs with _ | ⟨q, qs⟩
    · simp at hmap
    · simp only [List.map_cons, List.cons.injEq] at hmap
      cases hf with
      | cons hhead htail =>
        refine List.Forall₂.cons ?_ (ih qs _ hmap.2 htail)
        obtain ⟨tn, htn⟩ := hhead
        exact ⟨tn, by rw [htn, hmap.1]⟩

/-- C4 as amended: for a structure in a well-formed decoded catalog whose
every transitively referenced name is defined in one of the three
namespaces AND from which no reference cycle through structures is
reachable, resolution succeeds at some finite fuel and emission
succeeds, producing (after the recursively emitted declarations)
exactly one field line per property, in the original property order,
each carrying that property's wire name verbatim in its serialization
tag; the original claim's hypothesis alone does not suffice, because a
cyclic catalog has every referenced name defined yet never resolves. -/
theorem C4_amended (m : Model) (name : String) (sa : Structure)
    (hwf : wfModel m = true)
    (hfind : findStructure m name = some sa)
    (hdef : ∀ n, ReachName m name n → definedName m n = true)
    (hacyc : AcyclicFrom m name) :
    ∃ fuel st pre types,
      resolveStructureF fuel m name = some (.ok st) ∧
      printPropsR st.properties = .ok (pre, types) ∧
      printStructR st = .ok (pre ++ "type " ++ sa.name ++ " struct \x7b\n" ++
        String.join (types.map (fun line => "\t" ++ line ++ "\n")) ++ "\x7d\n") ∧
      types.length = sa.properties.length ∧
      List.Forall₂ (fun (p : Property) (line : String) =>
        ∃ tn, line = fieldLine (toGoPascal p.name) tn p.name) sa.properties types := by
  obtain ⟨rank, hrank⟩ := hacyc
  obtain ⟨fuel, st, hres⟩ := resolveStructureF_succeeds m name rank hwf hrank hdef
    (rank name + 1) name .refl (by rw [hfind]; rfl) (by omega)
  obtain ⟨hname, hnmap⟩ := resolveStructureF_shape hfind hres
  have hok : EmitOK st := (resolveEmitOK hwf fuel).2.2.2 name st hres
  rcases st with ⟨be, nm, props, docs, exts, mixs⟩
  simp only [Structure.name] at hname
  simp only [Structure.properties] at hnmap
  have hprops : EmitOKProps props := by
    cases hok with
    | intro _ _ _ _ _ _ h => exact h
  obtain ⟨pre, types, hpp⟩ := (emitOK_print (sizeOf props)).2.1 props (Nat.le_refl _) hprops
  have hshape := printProps_shape props pre types hpp
  have hf2 := forall2_fieldLine_transport props sa.properties types hnmap hshape
  refine ⟨fuel, ⟨be, nm, props, docs, exts, mixs⟩, pre, types, hres, ?_, ?_, ?_, hf2⟩
  · simpa [Structure.properties] using hpp
  · subst hname
    simp only [printStructR]
    rw [hpp]
    rfl
  · have hlen := List.Forall₂.length_eq hf2
    omega

/-- Witness for C4 on the acyclic two-structure catalog `mAB`, requesting
`A` (whose one property references `B`). -/
theorem C4_witness :
    ∃ fuel st pre types,
      resolveStructureF fuel mAB "A" = some (.ok st) ∧
      printPropsR st.properties = .ok (pre, types) ∧
      printStructR st = .ok (pre ++ "type " ++ structA.name ++ " struct \x7b\n" ++
        String.join (types.map (fun line => "\t" ++ line ++ "\n")) ++ "\x7d\n") ∧
      types.length = structA.properties.length ∧
      List.Forall₂ (fun (p : Property) (line : String) =>
        ∃ tn, line = fieldLine (toGoPascal p.name) tn p.name) structA.properties types :=
  C4_amended mAB "A" structA (by decide) rfl
    (by
      intro n hn
      induction hn with
      | refl => decide
      | step a b sa' hr hfs hmem =>
        have hmemAB : sa' = structA ∨ sa' = structB := by
          simpa [mAB] using (findStructure_mem hfs).1
        rcases hmemAB with h | h <;> subst h
        · rw [show structRefNames structA = ["B"] from rfl] at hmem
          simp only [List.mem_singleton] at hmem
          subst hmem
          decide
        · rw [show structRefNames structB = [] from rfl] at hmem
          exact absurd hmem (List.not_mem_nil b))
    ⟨fun n => if n = "A" then 1 else 0, by
      intro a b sa' hreach hfind2 hmem hsome
      have hmm := findStructure_mem hfind2
      have hmemAB : sa' = structA ∨ sa' = structB := by
        simpa [mAB] using hmm.1
      rcases hmemAB with h | h <;> subst h
      · rw [show structRefNames structA = ["B"] from rfl] at hmem
        simp only [List.mem_singleton] at hmem
        subst hmem
        have ha : "A" = a := by
          have h2 := hmm.2
          simpa [structA, Structure.name] using h2
        subst ha
        decide
      · rw [show structRefNames structB = [] from rfl] at hmem
        exact absurd hmem (List.not_mem_nil b)⟩

theorem C4_counterexample :
    (∀ n ∈ structRefNames structACyc, definedName mCyc n = true) ∧
    ¬ ∃ fuel st, resolveStructureF fuel mCyc "A" = some (.ok st) := by
  constructor
  · decide
  · rintro ⟨fuel, st, h⟩
    rw [(cycNone fuel).1] at h
    exact Option.noConfusion h

end Lsplib
